import Mathlib

set_option maxRecDepth 100000

/-!
# Verification of the Boomaga PDF reader (src/gui/pdfparser/pdfreader.cpp)

A shallow embedding of the `PDF::Reader` class.  The byte buffer `mData`
is modelled as a `List Nat` of byte values; a read past the end of the
buffer (which in C++ reads unspecified adjacent memory) is modelled as
the byte `0`.  Positions (`qint64` in the source) are `Nat`.  C `double`
values are modelled as exact rationals (`ℚ`); all numeric literals
exercised by the theorems below are integers, which `double` represents
exactly.  Exceptions (`ParseError`, `HeaderError`, `UnknownValueError`)
become an `Except` error type; the human-readable messages carried by
the C++ exceptions are not modelled, only the kind and byte position.
The recursive-descent parser is given explicit fuel so that every
definition is structurally recursive and executable by kernel reduction.
-/

namespace PdfReader

/-- Byte access `mData[pos]`; out-of-range reads yield `0`. -/
def byteAt (d : List Nat) (pos : Nat) : Nat :=
  (d.drop pos).headD 0

/-- ASCII bytes of a Lean string literal (all our inputs are ASCII). -/
def strBytes (s : String) : List Nat :=
  s.toList.map Char.toNat

/-- C `isspace` on the default locale: space, \t, \n, \v, \f, \r. -/
def isSpaceByte (b : Nat) : Bool :=
  b = 32 || b = 9 || b = 10 || b = 11 || b = 12 || b = 13

/-- Decimal digit byte. -/
def isDigitByte (b : Nat) : Bool :=
  48 ≤ b && b ≤ 57

/-- `Reader::isDelim`: `isspace(mData[pos]) || strchr("()<>[]{}/%", mData[pos])`.
Note that `strchr` also matches the terminating NUL, so byte 0 is a
delimiter (and so is an out-of-range read in this model). -/
def isDelim (d : List Nat) (pos : Nat) : Bool :=
  isDelimByte (byteAt d pos)
where
  /-- Delimiter test on the byte itself. -/
  isDelimByte (b : Nat) : Bool :=
    isSpaceByte b || b = 40 || b = 41 || b = 60 || b = 62 || b = 91 ||
      b = 93 || b = 123 || b = 125 || b = 47 || b = 37 || b = 0

/-- `Reader::skipSpace`: advance while `pos < mSize && isspace(mData[pos])`. -/
def skipSpace (d : List Nat) (pos : Nat) : Nat :=
  pos + ((d.drop pos).takeWhile isSpaceByte).length

/-- `Reader::skipCRLF`: advance while the current byte is `\n` or `\r`.
The C++ loop has no upper bound check; in this model a read past the end
yields 0, which stops the loop at the end of the buffer. -/
def skipCRLF (d : List Nat) (pos : Nat) : Nat :=
  pos + ((d.drop pos).takeWhile (fun b => b = 10 || b = 13)).length

/-- Value of a big-endian list of decimal digit bytes. -/
def digitVal (ds : List Nat) : Nat :=
  ds.foldl (fun a c => a * 10 + (c - 48)) 0

/-- `strncmp(mData + pos, str, str.length) == 0` for a NUL-free needle. -/
def strncmpEq (d : List Nat) : Nat → List Nat → Bool
  | _, [] => true
  | pos, c :: t => byteAt d pos == c && strncmpEq d (pos + 1) t

/-- `Reader::compareStr`: `(mSize - pos > len) && strncmp(...) == 0`
(`mSize - pos` is a signed `qint64`, so the bound is `pos + len < mSize`). -/
def compareStr (d : List Nat) (pos : Nat) (s : List Nat) : Bool :=
  decide (pos + s.length < d.length) && strncmpEq d pos s

/-- `Reader::compareWord`: like `compareStr` with bound `len + 1` and the
additional requirement that the byte after the word is a delimiter. -/
def compareWord (d : List Nat) (pos : Nat) (s : List Nat) : Bool :=
  decide (pos + s.length + 1 < d.length) && strncmpEq d pos s &&
    isDelim d (pos + s.length)

/-- `Reader::indexOf`: first `i` in `[from, mSize - len)` with a match,
`-1` if none (note the strict upper bound excludes a match ending exactly
at the end of the buffer). -/
def indexOf (d : List Nat) (s : List Nat) (fromPos : Nat) : Int :=
  match (List.range' fromPos (d.length - s.length - fromPos)).find?
      (fun i => strncmpEq d i s) with
  | some i => (i : Int)
  | none => -1

/-- `Reader::indexOfBack`: last `i` in `[1, from - len + 1]` with a match
(searching downward; position 0 is never reported), `-1` if none. -/
def indexOfBack (d : List Nat) (s : List Nat) (fromPos : Nat) : Int :=
  match (List.range' 1 (fromPos + 1 - s.length)).reverse.find?
      (fun i => strncmpEq d i s) with
  | some i => (i : Int)
  | none => -1

/-- Error kinds thrown by the reader (message strings are not modelled).
`fuelOut` is an artifact of the explicit fuel and corresponds to no
behaviour of the C++ code; theorems are stated with enough fuel. -/
inductive PErr where
  | headerError (pos : Nat)
  | parseError (pos : Nat)
  | unknownValue (pos : Nat)
  | fuelOut
deriving DecidableEq, Repr

/-- `strtoll(mData + pos, &end, 10)` (64-bit `long long`): skip ASCII
whitespace, an optional sign, then decimal digits; clamp to the
`long long` range on overflow.  Returns the value and the end position;
when no digits are found the end position is `pos` itself. -/
def strtollModel (d : List Nat) (pos : Nat) : Int × Nat :=
  let p1 := skipSpace d pos
  let (neg, p2) :=
    if byteAt d p1 = 45 then (true, p1 + 1)
    else if byteAt d p1 = 43 then (false, p1 + 1)
    else (false, p1)
  let ds := (d.drop p2).takeWhile isDigitByte
  if ds.length = 0 then (0, pos)
  else
    let v : Int := if neg then -(digitVal ds : Int) else (digitVal ds : Int)
    let c : Int :=
      if v < -(2 ^ 63) then -(2 ^ 63)
      else if (2 ^ 63 - 1 : Int) < v then 2 ^ 63 - 1
      else v
    (c, p2 + ds.length)

/-- `strtoul`/`strtoull` (64-bit `unsigned long`): like `strtollModel`
but unsigned; a leading minus wraps modulo `2 ^ 64`, overflow clamps to
`ULONG_MAX`. -/
def strtoulModel (d : List Nat) (pos : Nat) : Nat × Nat :=
  let p1 := skipSpace d pos
  let (neg, p2) :=
    if byteAt d p1 = 45 then (true, p1 + 1)
    else if byteAt d p1 = 43 then (false, p1 + 1)
    else (false, p1)
  let ds := (d.drop p2).takeWhile isDigitByte
  if ds.length = 0 then (0, pos)
  else
    let v := digitVal ds
    let vc := if 2 ^ 64 ≤ v then 2 ^ 64 - 1 else v
    ((if neg then (2 ^ 64 - vc) % 2 ^ 64 else vc), p2 + ds.length)

/-- `Reader::readUInt`: `strtoul` truncated to `quint32`; `ok` is true
iff the end pointer moved.  Returns `(value, new position, ok)`. -/
def readUInt (d : List Nat) (pos : Nat) : Nat × Nat × Bool :=
  let r := strtoulModel d pos
  (r.1 % 2 ^ 32, r.2, decide (r.2 ≠ pos))

/-- `Reader::readNum`: optional leading `-`, integer part via `strtoll`,
then an optional fractional part after `.`.  The C++ `res * sign` on a
`double` is modelled as conditional negation of the exact rational.
The C++ assignment `double res = strtoll(...)` is exact only for
integers of magnitude at most `2 ^ 53` (the `double` significand);
above that it rounds, which this exact-rational model does not
reproduce, so every theorem about numeric parsing confines its integer
literals to the exact range. -/
def readNum (d : List Nat) (pos : Nat) : ℚ × Nat × Bool :=
  let (str, neg) :=
    if byteAt d pos = 45 then (pos + 1, true) else (pos, false)
  let (iv, e1) := strtollModel d str
  let (res, e2) : ℚ × Nat :=
    if byteAt d e1 = 46 then
      if isDigitByte (byteAt d (e1 + 1)) then
        let (fv, e3) := strtollModel d (e1 + 1)
        (if e1 + 1 < e3 then
            (iv : ℚ) + (fv : ℚ) / ((10 : ℚ) ^ (e3 - (e1 + 1)))
          else (iv : ℚ), e3)
      else ((iv : ℚ), e1 + 1)
    else ((iv : ℚ), e1)
  ((if neg then -res else res), e2, decide (e2 ≠ pos))

/-- Truncation of a `double` toward zero when converted to a C integer
type (`qint64 len = v.asNumber().value()` etc.); exact on integers.
`Int.tdiv` truncates toward zero, matching the C++ conversion also on
negative non-integer values. -/
def ratTrunc (q : ℚ) : Int :=
  q.num.tdiv (q.den : Int)

/-- Modelled from the spec: the `Value` tagged union of pdfvalue.h (not
under src/): `Null`, `Bool`, `Number(double)`, `Name`, `String` (decoded
bytes plus which encoding produced them), `Array`, `Dict` (name→value,
insertion order preserved, keys unique, last write wins), and
`Link(objNum: u32, genNum: u16)`.  Names, string payloads and dict keys
are kept as raw byte lists (the source decodes them to `QString` text;
that text conversion is not modelled).  `link` stores its fields already
truncated to u32/u16 as the spec's field widths dictate. -/
inductive Value where
  | null
  | bool (b : Bool)
  | number (v : ℚ)
  | name (s : List Nat)
  | string (bytes : List Nat) (hexEncoded : Bool)
  | array (items : List Value)
  | dict (entries : List (List Nat × Value))
  | link (objNum genNum : Nat)
deriving Repr

/-- Modelled from the spec: a `Dict` is the entry list of `Value.dict`. -/
abbrev Dict := List (List Nat × Value)

/-- Modelled from the spec: `Dict::insert` — last write wins, insertion
order preserved (replace in place if the key exists, else append). -/
def dictInsert (dct : Dict) (k : List Nat) (v : Value) : Dict :=
  if dct.any (fun e => e.1 == k) then
    dct.map (fun e => if e.1 == k then (k, v) else e)
  else dct ++ [(k, v)]

/-- Lookup of a key in a `Dict`. -/
def dictLookup (dct : Dict) (k : List Nat) : Option Value :=
  (dct.find? (fun e => e.1 == k)).map (fun e => e.2)

/-- Modelled from the spec: `dict.value(key).asNumber().value()` — a
missing key yields a default-constructed (null) value, whose numeric
value is `0` (this is what ends the `/Prev` walk in `Reader::load`);
a present non-number value likewise contributes `0`. -/
def dictNumValue (dct : Dict) (k : List Nat) : ℚ :=
  match dictLookup dct k with
  | some (Value.number q) => q
  | _ => 0

/-- Modelled from the spec: the dictionary carried by a value
(`Object::dict()`); non-dict values give an empty dictionary. -/
def valueAsDict : Value → Dict
  | Value.dict es => es
  | _ => ([] : List (List Nat × Value))

/-- Modelled from the spec: `Value::asNumber().value()` — the numeric
payload of a value, `0` for non-numbers. -/
def valueAsNumber : Value → ℚ
  | Value.number q => q
  | _ => 0

/-- `Reader::readNameString`: expect `/` at `pos`, then scan up to (not
including) the next delimiter; the stored text excludes the leading `/`
and the cursor is left at the delimiter.  Reaching the end of the buffer
without a delimiter is a `ParseError` at the starting position. -/
def readNameString (d : List Nat) (pos : Nat) : Except PErr (List Nat × Nat) :=
  if byteAt d pos ≠ 47 then Except.error (PErr.parseError pos)
  else
    let t := (d.drop (pos + 1)).takeWhile (fun b => !isDelim.isDelimByte b)
    if pos + 1 + t.length < d.length then Except.ok (t, pos + 1 + t.length)
    else Except.error (PErr.parseError pos)

/-- Hex digit test (`0-9`, `A-F`, `a-f`), mirroring the switch cases of
`Reader::readHexString`. -/
def isHexDigitByte (b : Nat) : Bool :=
  (48 ≤ b && b ≤ 57) || (65 ≤ b && b ≤ 70) || (97 ≤ b && b ≤ 102)

/-- Numeric value of a hex digit byte. -/
def hexVal (b : Nat) : Nat :=
  if 48 ≤ b && b ≤ 57 then b - 48
  else if 65 ≤ b && b ≤ 70 then b - 65 + 10
  else if 97 ≤ b && b ≤ 102 then b - 97 + 10
  else 0

/-- The loop body of `Reader::readHexString`, structurally recursive on
the remaining bytes (`rest = d.drop pos`, so running out of list is the
`pos < mSize` loop bound).  State: decoded bytes `acc`, `first` digit
flag and pending high nibble `r`. -/
def readHexLoop (start : Nat) (acc : List Nat) (first : Bool) (r : Nat) :
    List Nat → Nat → Except PErr (List Nat × Nat)
  | [], _ => Except.error (PErr.parseError start)
  | c :: t, pos =>
    if isHexDigitByte c then
      if first then readHexLoop start acc false (hexVal c) t (pos + 1)
      else readHexLoop start (acc ++ [r * 16 + hexVal c]) true 0 t (pos + 1)
    else if isSpaceByte c then readHexLoop start acc first r t (pos + 1)
    else if c = 62 then
      Except.ok ((if first then acc else acc ++ [r * 16]), pos + 1)
    else Except.error (PErr.parseError pos)

/-- `Reader::readHexString` starting at the `<` at `start`: returns the
decoded bytes and the position after the closing `>`. -/
def readHexString (d : List Nat) (start : Nat) : Except PErr (List Nat × Nat) :=
  readHexLoop start [] true 0 (d.drop (start + 1)) (start + 1)

/-- Octal digit test (`0-7`). -/
def isOctalByte (b : Nat) : Bool :=
  48 ≤ b && b ≤ 55

/-- The loop body of `Reader::readLiteralString`, recursive on explicit
fuel (one unit per C++ loop iteration; the iteration count is bounded by
the buffer length, so any `fuel` of at least `rest.length + 1` is
enough).  `rest = d.drop pos`, so running out of list is the
`i < mSize` loop bound.  State: nesting `level` (starts at 1), pending
escape flag `esc`, decoded bytes `acc`.  The octal escape reads at most
two further digits inline; `char` overflow truncates modulo 256. -/
def readLitLoop (start : Nat) :
    Nat → Nat → Bool → List Nat → List Nat → Nat → Except PErr (List Nat × Nat)
  | 0, _, _, _, _, _ => Except.error PErr.fuelOut
  | _ + 1, _, _, _, [], _ => Except.error (PErr.parseError start)
  | fuel + 1, level, esc, acc, c :: t, i =>
    if c = 92 then
      if esc then readLitLoop start fuel level false (acc ++ [92]) t (i + 1)
      else readLitLoop start fuel level true acc t (i + 1)
    else if c = 110 then
      readLitLoop start fuel level false (acc ++ [if esc then 10 else 110]) t (i + 1)
    else if c = 114 then
      readLitLoop start fuel level false (acc ++ [if esc then 13 else 114]) t (i + 1)
    else if c = 116 then
      readLitLoop start fuel level false (acc ++ [if esc then 9 else 116]) t (i + 1)
    else if c = 98 then
      readLitLoop start fuel level false (acc ++ [if esc then 8 else 98]) t (i + 1)
    else if c = 102 then
      readLitLoop start fuel level false (acc ++ [if esc then 12 else 102]) t (i + 1)
    else if isOctalByte c then
      if esc then
        match t with
        | c2 :: t2 =>
          if isOctalByte c2 then
            match t2 with
            | c3 :: t3 =>
              if isOctalByte c3 then
                readLitLoop start fuel level false
                  (acc ++ [(((c - 48) * 8 + (c2 - 48)) * 8 + (c3 - 48)) % 256])
                  t3 (i + 3)
              else
                readLitLoop start fuel level false
                  (acc ++ [((c - 48) * 8 + (c2 - 48)) % 256]) t2 (i + 2)
            | [] =>
              readLitLoop start fuel level false
                (acc ++ [((c - 48) * 8 + (c2 - 48)) % 256]) t2 (i + 2)
          else
            readLitLoop start fuel level false (acc ++ [(c - 48) % 256]) t (i + 1)
        | [] =>
          readLitLoop start fuel level false (acc ++ [(c - 48) % 256]) t (i + 1)
      else readLitLoop start fuel level false (acc ++ [c]) t (i + 1)
    else if c = 10 then
      if esc then
        match t with
        | 13 :: t2 => readLitLoop start fuel level false acc t2 (i + 2)
        | _ => readLitLoop start fuel level false acc t (i + 1)
      else readLitLoop start fuel level false (acc ++ [10]) t (i + 1)
    else if c = 13 then
      if esc then
        match t with
        | 10 :: t2 => readLitLoop start fuel level false acc t2 (i + 2)
        | _ => readLitLoop start fuel level false acc t (i + 1)
      else readLitLoop start fuel level false (acc ++ [13]) t (i + 1)
    else if c = 40 then
      readLitLoop start fuel (if esc then level else level + 1) false
        (acc ++ [40]) t (i + 1)
    else if c = 41 then
      if esc then readLitLoop start fuel level false (acc ++ [41]) t (i + 1)
      else if level = 1 then Except.ok (acc, i + 1)
      else readLitLoop start fuel (level - 1) false (acc ++ [41]) t (i + 1)
    else
      readLitLoop start fuel level false (acc ++ [c]) t (i + 1)

/-- `Reader::readLiteralString` starting at the `(` at `start`: returns
the decoded bytes and the position after the closing `)`. -/
def readLiteralString (d : List Nat) (fuel start : Nat) :
    Except PErr (List Nat × Nat) :=
  readLitLoop start fuel 1 false [] (d.drop (start + 1)) (start + 1)

/-- `Reader::readValue` skipping to the end of the current line (the
`%` comment case). -/
def skipToEOL (d : List Nat) (pos : Nat) : Nat :=
  pos + ((d.drop pos).takeWhile (fun b => !(b == 10) && !(b == 13))).length

/-- The byte lists of the C string literals used by the reader. -/
def trueBytes : List Nat := strBytes "true"

/-- Bytes of the word false. -/
def falseBytes : List Nat := strBytes "false"

/-- Bytes of the word null. -/
def nullBytes : List Nat := strBytes "null"

/-- Bytes of the word obj. -/
def objBytes : List Nat := strBytes "obj"

/-- Bytes of the word stream. -/
def streamBytes : List Nat := strBytes "stream"

/-- Bytes of the word endstream. -/
def endstreamBytes : List Nat := strBytes "endstream"

/-- Bytes of the word xref. -/
def xrefBytes : List Nat := strBytes "xref"

/-- Bytes of the word trailer. -/
def trailerBytes : List Nat := strBytes "trailer"

/-- Bytes of the word startxref. -/
def startxrefBytes : List Nat := strBytes "startxref"

/-- Bytes of the PDF header signature. -/
def pdfMagicBytes : List Nat := strBytes "%PDF-"

/-- Dict key Length. -/
def lengthKey : List Nat := strBytes "Length"

/-- Dict key Prev. -/
def prevKey : List Nat := strBytes "Prev"

/-- The three mutually recursive loops of the value parser —
`Reader::readValue`, the element loop of `Reader::readArray` and the
key/value loop of `Reader::readDict` — combined into one function that
is structurally recursive on fuel (one unit per mutual call and per loop
iteration).  `arrLoop`/`dictLoop` carry the `start` position used in
error reports and the accumulated elements/entries; their results are
packaged as `Value.array`/`Value.dict`. -/
inductive PTask where
  | val (pos : Nat)
  | arrLoop (start pos : Nat) (acc : List Value)
  | dictLoop (start pos : Nat) (acc : Dict)

/-- The combined recursive parser; see `PTask`. -/
def parseRun (d : List Nat) : Nat → PTask → Except PErr (Value × Nat)
  | 0, _ => Except.error PErr.fuelOut
  | fuel + 1, PTask.val pos =>
    let c := byteAt d pos
    -- Link or Number .................
    if 48 ≤ c ∧ c ≤ 57 then
      let (n1, p1, ok) := readNum d pos
      if !ok then Except.error (PErr.parseError p1)
      -- the C++ test `n1 != quint64(n1)`: n1 is non-negative here, so it
      -- holds exactly when n1 is not an integer
      else if n1.den ≠ 1 then Except.ok (Value.number n1, p1)
      else
        let p := skipSpace d p1
        let (n2, p2, ok2) := readUInt d p
        if !ok2 then Except.ok (Value.number n1, p1)
        else
          let p3 := skipSpace d p2
          if byteAt d p3 ≠ 82 then Except.ok (Value.number n1, p1)
          -- Link(n1, n2): the double n1 is converted to the u32 objNum
          -- field and n2 to the u16 genNum field (conversions out of
          -- range are undefined behaviour in C++, modelled as mod)
          else Except.ok
            (Value.link (n1.num.toNat % 2 ^ 32) (n2 % 2 ^ 16), p3 + 1)
    -- Float number ...................
    else if c = 45 ∨ c = 43 ∨ c = 46 then
      let (n, p1, ok) := readNum d pos
      if !ok then Except.error (PErr.parseError p1)
      else Except.ok (Value.number n, p1)
    -- Array ..........................
    else if c = 91 then parseRun d fuel (PTask.arrLoop pos (pos + 1) [])
    -- Dict or HexString ..............
    else if c = 60 then
      if byteAt d (pos + 1) = 60 then
        parseRun d fuel (PTask.dictLoop pos (pos + 2) [])
      else
        match readHexString d pos with
        | Except.ok (bs, p) => Except.ok (Value.string bs true, p)
        | Except.error e => Except.error e
    -- Name ...........................
    else if c = 47 then
      match readNameString d pos with
      | Except.ok (nm, p) => Except.ok (Value.name nm, p)
      | Except.error e => Except.error e
    -- LiteralString ..................
    else if c = 40 then
      match readLiteralString d (fuel + 1) pos with
      | Except.ok (bs, p) => Except.ok (Value.string bs false, p)
      | Except.error e => Except.error e
    -- Bool ...........................
    else if c = 116 ∨ c = 102 then
      if compareWord d pos trueBytes then Except.ok (Value.bool true, pos + 4)
      -- NOTE: the source (pdfreader.cpp line 174) returns Bool(true)
      -- from the false branch as well
      else if compareWord d pos falseBytes then
        Except.ok (Value.bool true, pos + 5)
      else Except.error (PErr.parseError pos)
    -- None ...........................
    else if c = 110 then
      if !compareWord d pos nullBytes then Except.error (PErr.parseError pos)
      else Except.ok (Value.null, pos + 4)
    -- Comment ........................
    else if c = 37 then
      parseRun d fuel (PTask.val (skipSpace d (skipToEOL d pos)))
    else Except.error (PErr.unknownValue pos)
  | fuel + 1, PTask.arrLoop start pos acc =>
    if pos < d.length then
      let pos := skipSpace d pos
      if pos = d.length then Except.error (PErr.parseError start)
      else if byteAt d pos = 93 then Except.ok (Value.array acc, pos + 1)
      else
        match parseRun d fuel (PTask.val pos) with
        | Except.ok (v, p) => parseRun d fuel (PTask.arrLoop start p (acc ++ [v]))
        | Except.error e => Except.error e
    else Except.error (PErr.parseError start)
  | fuel + 1, PTask.dictLoop start pos acc =>
    if pos + 1 < d.length then
      let pos := skipSpace d pos
      if byteAt d pos = 62 ∧ byteAt d (pos + 1) = 62 then
        Except.ok (Value.dict acc, pos + 2)
      else
        match readNameString d pos with
        | Except.error e => Except.error e
        | Except.ok (nm, p) =>
          let p := skipSpace d p
          match parseRun d fuel (PTask.val p) with
          | Except.ok (v, p2) =>
            parseRun d fuel (PTask.dictLoop start p2 (dictInsert acc nm v))
          | Except.error e => Except.error e
    else Except.error (PErr.parseError start)

/-- `Reader::readValue` at `pos` with explicit fuel; returns the value
and the position immediately after it. -/
def readValue (d : List Nat) (fuel pos : Nat) : Except PErr (Value × Nat) :=
  parseRun d fuel (PTask.val pos)

/-- `Reader::readArray` starting at the `[` at `start`. -/
def readArray (d : List Nat) (fuel start : Nat) : Except PErr (Value × Nat) :=
  parseRun d fuel (PTask.arrLoop start (start + 1) [])

/-- `Reader::readDict` starting at the `<<` at `start` (the two marker
bytes are skipped without being checked, as in the source). -/
def readDict (d : List Nat) (fuel start : Nat) : Except PErr (Dict × Nat) :=
  match parseRun d fuel (PTask.dictLoop start (start + 2) []) with
  | Except.ok (v, p) => Except.ok (valueAsDict v, p)
  | Except.error e => Except.error e

/-- Modelled from the spec: the `Used | Free` status of an `XRefEntry`
(pdfxref.h is not under src/). -/
inductive XStatus where
  | Used
  | Free
deriving DecidableEq, Repr

/-- Modelled from the spec: one cross-reference slot — byte offset
(0 if free), object number, generation number and status.  The field
order matches the constructor calls in `Reader::readXRefTable`. -/
structure XRefEntry where
  pos : Nat
  objNum : Nat
  genNum : Nat
  status : XStatus
deriving DecidableEq, Repr

/-- Modelled from the spec: the `XRefTable` maps object numbers to
entries; modelled as an association list written in insertion order. -/
abbrev XRefTable := List (Nat × XRefEntry)

/-- `XRefTable::contains`. -/
def tblContains (t : XRefTable) (n : Nat) : Bool :=
  t.any (fun e => e.1 == n)

/-- `XRefTable::insert` (QMap semantics: replace if present, else add;
the reader only ever inserts keys that are absent). -/
def tblInsert (t : XRefTable) (n : Nat) (e : XRefEntry) : XRefTable :=
  if t.any (fun x => x.1 == n) then
    t.map (fun x => if x.1 == n then (n, e) else x)
  else t ++ [(n, e)]

/-- Modelled from the spec: `XRefTable::value` — a missing object
number yields a default-constructed entry whose offset is 0 (spec §4.5:
objects with no recorded offset are treated as absent). -/
def tblValue (t : XRefTable) (n : Nat) : XRefEntry :=
  match t.find? (fun e => e.1 == n) with
  | some e => e.2
  | none => ⟨0, 0, 0, XStatus.Free⟩

/-- The inner `for (uint i=0; i<cnt; ++i)` loop of
`Reader::readXRefTable`: `cnt` fixed-width 20-byte records starting at
`pos`, for object numbers `objNum, objNum+1, ...`.  A record is only
inserted if its object number is not already present (first-write-wins);
offset digits are read by `strtoull` at column 0 and the generation by
`strtoul` at column 11; column 17 distinguishes `n` (Used) from
anything else (Free, offset forced to 0). -/
def entriesLoop (d : List Nat) : Nat → Nat → Nat → XRefTable → XRefTable × Nat
  | 0, _, pos, tbl => (tbl, pos)
  | cnt + 1, objNum, pos, tbl =>
    let tbl :=
      if tblContains tbl objNum then tbl
      else if byteAt d (pos + 17) = 110 then
        tblInsert tbl objNum
          ⟨(strtoulModel d pos).1, objNum,
            (strtoulModel d (pos + 11)).1 % 2 ^ 32, XStatus.Used⟩
      else
        tblInsert tbl objNum
          ⟨0, objNum, (strtoulModel d (pos + 11)).1 % 2 ^ 32, XStatus.Free⟩
    entriesLoop d cnt (objNum + 1) (pos + 20) tbl

/-- The outer `do { ... } while (!compareStr(pos, "trailer"))` loop of
`Reader::readXRefTable`: read a subsection header (start object number
and count), then its records, until the next token is `trailer`.  Fuel
bounds the number of subsections. -/
def xrefLoop (d : List Nat) : Nat → Nat → XRefTable → Except PErr (XRefTable × Nat)
  | 0, _, _ => Except.error PErr.fuelOut
  | fuel + 1, pos, tbl =>
    let (startObjNum, p1, ok1) := readUInt d pos
    if !ok1 then Except.error (PErr.parseError p1)
    else
      let (cnt, p2, ok2) := readUInt d p1
      if !ok2 then Except.error (PErr.parseError p2)
      else
        let p3 := skipSpace d p2
        let (tbl2, p4) := entriesLoop d cnt startObjNum p3 tbl
        let p5 := skipSpace d p4
        if compareStr d p5 trailerBytes then Except.ok (tbl2, p5)
        else xrefLoop d fuel p5 tbl2

/-- `Reader::readXRefTable`: expect the `xref` keyword, then parse
subsections into the given table; returns the merged table and the
position of the `trailer` keyword. -/
def readXRefTable (d : List Nat) (fuel pos : Nat) (tbl : XRefTable) :
    Except PErr (XRefTable × Nat) :=
  let pos := skipSpace d pos
  if !compareWord d pos xrefBytes then Except.error (PErr.parseError pos)
  else xrefLoop d fuel (skipSpace d (pos + 4)) tbl

/-- Modelled from the spec: an indirect `Object` — object number,
generation number, its value, and an optional zero-copy stream view
recorded as (start position, length) into the source buffer
(pdfobject.h is not under src/). -/
structure Object where
  objNum : Nat
  genNum : Nat
  value : Value
  stream : Option (Nat × Nat)

/-- Modelled from the spec: a default-constructed (empty/null) object,
returned by `Reader::getObject` for absent entries. -/
def emptyObject : Object :=
  ⟨0, 0, Value.null, none⟩

/-- `Reader::readObject` and `Reader::getObject` are mutually recursive
(a stream `/Length` given as an indirect reference is resolved through
`getObject`), so they are combined into one function structurally
recursive on fuel.  `byPos` is `readObject(start, &res)` returning the
object and the position after it; `byNum` is `getObject(objNum, genNum)`
(its returned position is a dummy 0, discarded by the wrapper). -/
inductive OTask where
  | byPos (start : Nat)
  | byNum (objNum genNum : Nat)

/-- The combined object reader; see `OTask`. -/
def objRun (d : List Nat) (tbl : XRefTable) :
    Nat → OTask → Except PErr (Object × Nat)
  | 0, _ => Except.error PErr.fuelOut
  | fuel + 1, OTask.byNum objNum _ =>
    -- Q_UNUSED(genNum): the generation number is ignored
    let e := tblValue tbl objNum
    if e.pos ≠ 0 then
      match objRun d tbl fuel (OTask.byPos e.pos) with
      | Except.ok (obj, _) => Except.ok (obj, 0)
      | Except.error err => Except.error err
    else Except.ok (emptyObject, 0)
  | fuel + 1, OTask.byPos start =>
    let (onum, p1, ok1) := readUInt d start
    if !ok1 then Except.error (PErr.parseError p1)
    else
      let p2 := skipSpace d p1
      let (gnum, p3, ok2) := readUInt d p2
      if !ok2 then Except.error (PErr.parseError p3)
      else
        -- pos = indexOf("obj", pos) + 3 (unchecked: -1 + 3 when absent)
        let p4 := (indexOf d objBytes p3 + 3).toNat
        let p5 := skipSpace d p4
        match parseRun d fuel (PTask.val p5) with
        | Except.error e => Except.error e
        | Except.ok (v, p6) =>
          let p7 := skipSpace d p6
          let obj : Object := ⟨onum, gnum % 2 ^ 16, v, none⟩
          if compareWord d p7 streamBytes then
            let p8 := skipCRLF d (p7 + 6)
            let lenRes : Except PErr Int :=
              match dictLookup (valueAsDict v) lengthKey with
              | some (Value.number q) => Except.ok (ratTrunc q)
              | some (Value.link n g) =>
                match objRun d tbl fuel (OTask.byNum n g) with
                | Except.ok (o2, _) =>
                  Except.ok (ratTrunc (valueAsNumber o2.value))
                | Except.error err => Except.error err
              | _ => Except.error (PErr.parseError p8)
            match lenRes with
            | Except.error err => Except.error err
            | Except.ok len =>
              let obj : Object :=
                { obj with stream := some (p8, len.toNat) }
              let p9 := skipSpace d ((p8 + len).toNat)
              if compareWord d p9 endstreamBytes then
                Except.ok (obj, p9 + 9)
              else Except.ok (obj, p9)
          else Except.ok (obj, p7)

/-- `Reader::readObject(start, &res)`. -/
def readObject (d : List Nat) (tbl : XRefTable) (fuel start : Nat) :
    Except PErr (Object × Nat) :=
  objRun d tbl fuel (OTask.byPos start)

/-- `Reader::getObject(objNum, genNum)` over the merged table. -/
def getObject (d : List Nat) (tbl : XRefTable) (fuel objNum genNum : Nat) :
    Except PErr Object :=
  match objRun d tbl fuel (OTask.byNum objNum genNum) with
  | Except.ok (obj, _) => Except.ok obj
  | Except.error e => Except.error e

/-- The `while (parentXrefPos)` loop of `Reader::load`: follow the
`/Prev` chain, merging each older segment into the same table
(first-write-wins) and reading each older trailer only to find the next
`/Prev`.  The trailer dictionaries of older revisions are *not* merged
into the document trailer — each is a local variable in the source. -/
def loadLoop (d : List Nat) : Nat → Int → XRefTable → Except PErr XRefTable
  | 0, _, _ => Except.error PErr.fuelOut
  | fuel + 1, parentXrefPos, tbl =>
    if parentXrefPos = 0 then Except.ok tbl
    else
      match readXRefTable d fuel parentXrefPos.toNat tbl with
      | Except.error e => Except.error e
      | Except.ok (tbl2, p) =>
        match readDict d fuel (skipSpace d (p + 7)) with
        | Except.error e => Except.error e
        | Except.ok (dct, _) =>
          loadLoop d fuel (ratTrunc (dictNumValue dct prevKey)) tbl2

/-- `Reader::load`: check the `%PDF-` header, find the last `startxref`,
read the offset after it, parse that xref segment and its trailer, then
walk the `/Prev` chain.  Returns the merged table and the trailer
dictionary (which is exactly the newest revision's trailer). -/
def load (d : List Nat) (fuel : Nat) : Except PErr (XRefTable × Dict) :=
  if indexOf d pdfMagicBytes 0 ≠ 0 then Except.error (PErr.headerError 0)
  else
    let startXRef := indexOfBack d startxrefBytes (d.length - 1)
    if startXRef < 0 then Except.error (PErr.parseError 0)
    else
      let pos := startXRef.toNat + 9
      let (xrefPos, p1, ok) := readUInt d pos
      if !ok then Except.error (PErr.parseError p1)
      else
        match readXRefTable d fuel xrefPos [] with
        | Except.error e => Except.error e
        | Except.ok (tbl, p) =>
          match readDict d fuel (skipSpace d (p + 7)) with
          | Except.error e => Except.error e
          | Except.ok (trailer, _) =>
            match loadLoop d fuel (ratTrunc (dictNumValue trailer prevKey)) tbl with
            | Except.error e => Except.error e
            | Except.ok tbl2 => Except.ok (tbl2, trailer)

/-! ## Concrete test buffers

`twoRevPdf` is a complete two-revision (incrementally updated) PDF.
Revision 1 defines object 1 at offset 9 with body `<< /T 1 >>`; its
xref segment is at offset 35 and its trailer (at offset 92) carries
`/Foo 7`.  Revision 2 redefines object 1 at offset 125 with body
`<< /T 2 >>`; its xref segment is at offset 151, referenced by the final
`startxref`, and its trailer (at offset 208) carries `/Prev 35` and no
`/Foo`. -/

/-- The two-revision PDF byte buffer (263 bytes). -/
def twoRevPdf : List Nat :=
  strBytes "%PDF-1.4\n" ++
  strBytes "1 0 obj\n<< /T 1 >>\nendobj\n" ++
  strBytes "xref\n0 2\n" ++
  strBytes "0000000000 65535 f \n" ++
  strBytes "0000000009 00000 n \n" ++
  strBytes "trailer\n" ++
  strBytes "<< /Size 2 /Foo 7 /Root 1 0 R >>\n" ++
  strBytes "1 0 obj\n<< /T 2 >>\nendobj\n" ++
  strBytes "xref\n0 2\n" ++
  strBytes "0000000000 65535 f \n" ++
  strBytes "0000000125 00000 n \n" ++
  strBytes "trailer\n" ++
  strBytes "<< /Size 2 /Prev 35 /Root 1 0 R >>\n" ++
  strBytes "startxref\n151\n%%EOF\n"

/-- Dict key Foo (present only in the older revision's trailer). -/
def fooKey : List Nat := strBytes "Foo"

/-- A stream object whose `stream` keyword (at offset 24) is followed by
two line feeds; `/Length` is a direct number.  The payload `ABCD` starts
at offset 32, after *both* line feeds. -/
def streamPdf : List Nat :=
  strBytes "1 0 obj\n<< /Length 4 >>\nstream\n\nABCD\nendstream\n\n"

/-- A stream object whose `/Length` is the indirect reference `2 0 R`;
object 2 (at offset 50) has the value 4.  The `stream` keyword is at
offset 28, followed by a single line feed; the payload starts at 35. -/
def linkLenPdf : List Nat :=
  strBytes "1 0 obj\n<< /Length 2 0 R >>\nstream\nABCD\nendstream\n2 0 obj 4 endobj\n"

/-- The table used with `linkLenPdf`: object 2 at offset 50. -/
def linkLenTbl : XRefTable :=
  [(2, ⟨50, 2, 0, XStatus.Used⟩)]

/-! ## Generic list lemmas -/

theorem byteAt_drop (d : List Nat) (pos i : Nat) :
    byteAt d (pos + i) = byteAt (d.drop pos) i := by
  simp [byteAt, List.drop_drop, Nat.add_comm]

theorem byteAt_cons_zero (c : Nat) (t : List Nat) : byteAt (c :: t) 0 = c := rfl

theorem byteAt_cons_succ (c : Nat) (t : List Nat) (i : Nat) :
    byteAt (c :: t) (i + 1) = byteAt t i := by
  simp [byteAt]

theorem takeWhile_eq_of_all {p : Nat → Bool} (ds suf : List Nat)
    (h1 : ∀ b ∈ ds, p b = true)
    (h2 : ∀ c, suf.head? = some c → p c = false) :
    (ds ++ suf).takeWhile p = ds := by
  induction ds with
  | nil =>
    cases suf with
    | nil => rfl
    | cons c t => simp [List.takeWhile_cons, h2 c rfl]
  | cons b t ih =>
    have hb : p b = true := h1 b (List.mem_cons_self b t)
    simp [List.takeWhile_cons, hb]
    exact ih (fun x hx => h1 x (List.mem_cons_of_mem b hx))

theorem drop_append_cons (xs : List Nat) (c : Nat) (ys : List Nat) :
    (xs ++ c :: ys).drop (xs.length + 1) = ys := by
  have h : xs ++ c :: ys = (xs ++ [c]) ++ ys := by simp
  have h2 : xs.length + 1 = (xs ++ [c]).length := by simp
  rw [h, h2, List.drop_left]

theorem elem_takeWhile_sat {p : Nat → Bool} (l : List Nat) (i : Nat)
    (h : i < (l.takeWhile p).length) : p (byteAt l i) = true := by
  induction l generalizing i with
  | nil => simp [List.takeWhile] at h
  | cons c t ih =>
    by_cases hc : p c = true
    · simp [List.takeWhile_cons, hc] at h
      cases i with
      | zero => simpa [byteAt_cons_zero]
      | succ j =>
        rw [byteAt_cons_succ]
        exact ih j (by omega)
    · have hc' : p c = false := by simpa using hc
      simp [List.takeWhile_cons, hc'] at h

theorem after_takeWhile_fails {p : Nat → Bool} (l : List Nat)
    (h : p 0 = false) : p (byteAt l (l.takeWhile p).length) = false := by
  induction l with
  | nil => simpa [byteAt]
  | cons c t ih =>
    by_cases hc : p c = true
    · simpa [List.takeWhile_cons, hc, byteAt_cons_succ] using ih
    · have hc' : p c = false := by simpa using hc
      simp [List.takeWhile_cons, hc', byteAt_cons_zero]

/-! ## Region lemmas for the scanners -/

theorem skipSpace_region (d : List Nat) (pos : Nat) (ds suf : List Nat)
    (hd : d.drop pos = ds ++ suf)
    (h1 : ∀ b ∈ ds, isSpaceByte b = true)
    (h2 : ∀ c, suf.head? = some c → isSpaceByte c = false) :
    skipSpace d pos = pos + ds.length := by
  simp [skipSpace, hd, takeWhile_eq_of_all ds suf h1 h2]

theorem isSpaceByte_of_digit {b : Nat} (h : isDigitByte b = true) :
    isSpaceByte b = false := by
  simp [isDigitByte] at h
  simp [isSpaceByte]
  omega

theorem strtoulModel_digits (d : List Nat) (pos : Nat) (ds suf : List Nat)
    (hd : d.drop pos = ds ++ suf) (hne : ds ≠ [])
    (hds : ∀ b ∈ ds, isDigitByte b = true)
    (hsuf : ∀ c, suf.head? = some c → isDigitByte c = false)
    (hlt : digitVal ds < 2 ^ 64) :
    strtoulModel d pos = (digitVal ds, pos + ds.length) := by
  obtain ⟨b, t, rfl⟩ : ∃ b t, ds = b :: t := by
    cases ds with
    | nil => exact absurd rfl hne
    | cons b t => exact ⟨b, t, rfl⟩
  have hb : isDigitByte b = true := hds b (List.mem_cons_self b t)
  have hb' : 48 ≤ b ∧ b ≤ 57 := by simpa [isDigitByte] using hb
  have hskip : skipSpace d pos = pos + 0 := by
    refine skipSpace_region d pos [] ((b :: t) ++ suf) (by simpa using hd)
      (by simp) ?_
    intro c hc
    simp at hc
    subst hc
    exact isSpaceByte_of_digit hb
  have hbyte : byteAt d pos = b := by
    have := byteAt_drop d pos 0
    simp [hd] at this
    simpa [byteAt_cons_zero] using this
  have htw : (d.drop pos).takeWhile isDigitByte = b :: t := by
    rw [hd]
    exact takeWhile_eq_of_all (b :: t) suf hds hsuf
  simp only [strtoulModel, hskip, Nat.add_zero, hbyte]
  have h45 : ¬(b = 45) := by omega
  have h43 : ¬(b = 43) := by omega
  simp only [if_neg h45, if_neg h43, htw]
  simp
  intro h
  omega

theorem readUInt_digits (d : List Nat) (pos : Nat) (ds suf : List Nat)
    (hd : d.drop pos = ds ++ suf) (hne : ds ≠ [])
    (hds : ∀ b ∈ ds, isDigitByte b = true)
    (hsuf : ∀ c, suf.head? = some c → isDigitByte c = false)
    (hlt : digitVal ds < 2 ^ 32) :
    readUInt d pos = (digitVal ds, pos + ds.length, true) := by
  have h64 : digitVal ds < 2 ^ 64 := lt_trans hlt (by norm_num)
  have hlen : ds.length ≠ 0 := fun h => hne (List.eq_nil_of_length_eq_zero h)
  simp [readUInt, strtoulModel_digits d pos ds suf hd hne hds hsuf h64,
    Nat.mod_eq_of_lt hlt, hlen]
  omega

theorem byteAt_region (d : List Nat) (pos : Nat) (ds suf : List Nat)
    (hd : d.drop pos = ds ++ suf) :
    byteAt d (pos + ds.length) = byteAt suf 0 := by
  rw [byteAt_drop, hd]
  show ((ds ++ suf).drop ds.length).headD 0 = _
  rw [List.drop_left]
  rfl

theorem strtoulModel_digits_raw (d : List Nat) (pos : Nat) (ds suf : List Nat)
    (hd : d.drop pos = ds ++ suf) (hne : ds ≠ [])
    (hds : ∀ b ∈ ds, isDigitByte b = true)
    (hsuf : ∀ c, suf.head? = some c → isDigitByte c = false) :
    strtoulModel d pos =
      ((if 2 ^ 64 ≤ digitVal ds then 2 ^ 64 - 1 else digitVal ds),
        pos + ds.length) := by
  obtain ⟨b, t, rfl⟩ : ∃ b t, ds = b :: t := by
    cases ds with
    | nil => exact absurd rfl hne
    | cons b t => exact ⟨b, t, rfl⟩
  have hb : isDigitByte b = true := hds b (List.mem_cons_self b t)
  have hb' : 48 ≤ b ∧ b ≤ 57 := by simpa [isDigitByte] using hb
  have hskip : skipSpace d pos = pos + 0 := by
    refine skipSpace_region d pos [] ((b :: t) ++ suf) (by simpa using hd)
      (by simp) ?_
    intro c hc
    simp at hc
    subst hc
    exact isSpaceByte_of_digit hb
  have hbyte : byteAt d pos = b := by
    have := byteAt_drop d pos 0
    simp [hd] at this
    simpa [byteAt_cons_zero] using this
  have htw : (d.drop pos).takeWhile isDigitByte = b :: t := by
    rw [hd]
    exact takeWhile_eq_of_all (b :: t) suf hds hsuf
  simp only [strtoulModel, hskip, Nat.add_zero, hbyte]
  have h45 : ¬(b = 45) := by omega
  have h43 : ¬(b = 43) := by omega
  simp only [if_neg h45, if_neg h43, htw]
  simp

theorem readUInt_digits_raw (d : List Nat) (pos : Nat) (ds suf : List Nat)
    (hd : d.drop pos = ds ++ suf) (hne : ds ≠ [])
    (hds : ∀ b ∈ ds, isDigitByte b = true)
    (hsuf : ∀ c, suf.head? = some c → isDigitByte c = false) :
    readUInt d pos =
      ((if 2 ^ 64 ≤ digitVal ds then 2 ^ 64 - 1 else digitVal ds) % 2 ^ 32,
        pos + ds.length, true) := by
  have hlen : pos + ds.length ≠ pos := by
    have : ds.length ≠ 0 := fun h => hne (List.eq_nil_of_length_eq_zero h)
    omega
  simp [readUInt, strtoulModel_digits_raw d pos ds suf hd hne hds hsuf, hlen]

theorem strtollModel_digits (d : List Nat) (pos : Nat) (ds suf : List Nat)
    (hd : d.drop pos = ds ++ suf) (hne : ds ≠ [])
    (hds : ∀ b ∈ ds, isDigitByte b = true)
    (hsuf : ∀ c, suf.head? = some c → isDigitByte c = false)
    (hlt : (digitVal ds : Int) ≤ 2 ^ 63 - 1) :
    strtollModel d pos = ((digitVal ds : Int), pos + ds.length) := by
  obtain ⟨b, t, rfl⟩ : ∃ b t, ds = b :: t := by
    cases ds with
    | nil => exact absurd rfl hne
    | cons b t => exact ⟨b, t, rfl⟩
  have hb : isDigitByte b = true := hds b (List.mem_cons_self b t)
  have hb' : 48 ≤ b ∧ b ≤ 57 := by simpa [isDigitByte] using hb
  have hskip : skipSpace d pos = pos + 0 := by
    refine skipSpace_region d pos [] ((b :: t) ++ suf) (by simpa using hd)
      (by simp) ?_
    intro c hc
    simp at hc
    subst hc
    exact isSpaceByte_of_digit hb
  have hbyte : byteAt d pos = b := by
    have := byteAt_drop d pos 0
    simp [hd] at this
    simpa [byteAt_cons_zero] using this
  have htw : (d.drop pos).takeWhile isDigitByte = b :: t := by
    rw [hd]
    exact takeWhile_eq_of_all (b :: t) suf hds hsuf
  simp only [strtollModel, hskip, Nat.add_zero, hbyte]
  have h45 : ¬(b = 45) := by omega
  have h43 : ¬(b = 43) := by omega
  simp only [if_neg h45, if_neg h43, htw]
  have hge : ¬((digitVal (b :: t) : Int) < -(2 ^ 63)) := by
    have : (0 : Int) ≤ (digitVal (b :: t) : Int) := Int.natCast_nonneg _
    omega
  simp only [List.length_cons]
  rw [if_neg (by simp)]
  simp only [Bool.false_eq_true, if_false]
  rw [if_neg hge, if_neg (by omega)]

theorem readNum_digits (d : List Nat) (pos : Nat) (ds suf : List Nat)
    (hd : d.drop pos = ds ++ suf) (hne : ds ≠ [])
    (hds : ∀ b ∈ ds, isDigitByte b = true)
    (hsuf : ∀ c, suf.head? = some c → isDigitByte c = false)
    (h46 : byteAt suf 0 ≠ 46)
    (hlt : (digitVal ds : Int) ≤ 2 ^ 63 - 1) :
    readNum d pos = (((digitVal ds : Int) : ℚ), pos + ds.length, true) := by
  obtain ⟨b, t, rfl⟩ : ∃ b t, ds = b :: t := by
    cases ds with
    | nil => exact absurd rfl hne
    | cons b t => exact ⟨b, t, rfl⟩
  have hb : isDigitByte b = true := hds b (List.mem_cons_self b t)
  have hb' : 48 ≤ b ∧ b ≤ 57 := by simpa [isDigitByte] using hb
  have hbyte : byteAt d pos = b := by
    have := byteAt_drop d pos 0
    simp [hd] at this
    simpa [byteAt_cons_zero] using this
  have hafter : byteAt d (pos + (b :: t).length) = byteAt suf 0 :=
    byteAt_region d pos (b :: t) suf hd
  simp only [readNum, hbyte]
  have h45 : ¬(b = 45) := by omega
  rw [if_neg h45]
  dsimp only
  rw [strtollModel_digits d pos (b :: t) suf hd hne hds hsuf hlt]
  dsimp only
  rw [hafter, if_neg h46]
  have hlen : pos + (b :: t).length ≠ pos := by simp
  simp [hlen]

theorem c2_link_aux (ds1 ds2 rest : List Nat) (fuel : Nat)
    (h1 : ds1 ≠ []) (h2 : ds2 ≠ [])
    (hd1 : ∀ b ∈ ds1, isDigitByte b = true)
    (hd2 : ∀ b ∈ ds2, isDigitByte b = true)
    (hv1 : digitVal ds1 < 2 ^ 32) (hv2 : digitVal ds2 < 2 ^ 16) :
    readValue (ds1 ++ 32 :: (ds2 ++ 32 :: 82 :: rest)) (fuel + 1) 0 =
      Except.ok (Value.link (digitVal ds1) (digitVal ds2),
        ds1.length + ds2.length + 3) := by
  obtain ⟨b1, t1, rfl⟩ : ∃ b t, ds1 = b :: t := by
    cases ds1 with
    | nil => exact absurd rfl h1
    | cons b t => exact ⟨b, t, rfl⟩
  obtain ⟨b2, t2, rfl⟩ : ∃ b t, ds2 = b :: t := by
    cases ds2 with
    | nil => exact absurd rfl h2
    | cons b t => exact ⟨b, t, rfl⟩
  set ds1 := b1 :: t1 with hds1
  set ds2 := b2 :: t2 with hds2
  set d := ds1 ++ 32 :: (ds2 ++ 32 :: 82 :: rest) with hdd
  have hb1 : isDigitByte b1 = true := hd1 _ (List.mem_cons_self _ _)
  have hb1' : 48 ≤ b1 ∧ b1 ≤ 57 := by simpa [isDigitByte] using hb1
  have hb2 : isDigitByte b2 = true := hd2 _ (List.mem_cons_self _ _)
  have hb2' : 48 ≤ b2 ∧ b2 ≤ 57 := by simpa [isDigitByte] using hb2
  have hdrop0 : d.drop 0 = ds1 ++ (32 :: (ds2 ++ 32 :: 82 :: rest)) := by
    simp [hdd]
  have hbyte0 : byteAt d 0 = b1 := by
    simp [hdd, hds1, byteAt, List.cons_append]
  have hnum : readNum d 0 = (((digitVal ds1 : Int) : ℚ), 0 + ds1.length, true) := by
    refine readNum_digits d 0 ds1 (32 :: (ds2 ++ 32 :: 82 :: rest)) hdrop0
      (by simp [hds1]) hd1 ?_ (by simp [byteAt_cons_zero]) (by omega)
    intro c hc
    simp at hc
    subst hc
    rfl
  have hdrop1 : d.drop ds1.length = [32] ++ (ds2 ++ 32 :: 82 :: rest) := by
    simp only [hdd, List.drop_left]
    rfl
  have hskip1 : skipSpace d ds1.length = ds1.length + 1 := by
    refine skipSpace_region d ds1.length [32] (ds2 ++ 32 :: 82 :: rest) hdrop1
      (by decide) ?_
    intro c hc
    simp [hds2] at hc
    subst hc
    exact isSpaceByte_of_digit hb2
  have hdrop2 : d.drop (ds1.length + 1) = ds2 ++ (32 :: 82 :: rest) := by
    simp [hdd, drop_append_cons]
  have hui : readUInt d (ds1.length + 1) =
      (digitVal ds2, ds1.length + 1 + ds2.length, true) := by
    refine readUInt_digits d (ds1.length + 1) ds2 (32 :: 82 :: rest) hdrop2
      (by simp [hds2]) hd2 ?_ (by omega)
    intro c hc
    simp at hc
    subst hc
    rfl
  have hdrop3 : d.drop (ds1.length + 1 + ds2.length) = 32 :: 82 :: rest := by
    have h : (d.drop (ds1.length + 1)).drop ds2.length = 32 :: 82 :: rest := by
      rw [hdrop2]
      exact List.drop_left _ _
    rw [List.drop_drop] at h
    convert h using 2
  have hskip2 : skipSpace d (ds1.length + 1 + ds2.length) =
      ds1.length + 1 + ds2.length + 1 := by
    refine skipSpace_region d _ [32] (82 :: rest) (by simpa using hdrop3) ?_ ?_
    · decide
    · intro c hc
      simp at hc
      subst hc
      rfl
  have hbyteR : byteAt d (ds1.length + 1 + ds2.length + 1) = 82 := by
    rw [byteAt_drop, hdrop3]
    rfl
  show parseRun d (fuel + 1) (PTask.val 0) = _
  rw [parseRun]
  have hcond : 48 ≤ byteAt d 0 ∧ byteAt d 0 ≤ 57 := by
    rw [hbyte0]
    exact hb1'
  rw [if_pos hcond, hnum]
  dsimp only
  have hden : ¬(((digitVal ds1 : Int) : ℚ).den ≠ 1) := by
    simp [Rat.den_intCast]
  rw [if_neg (by simp)]
  rw [if_neg hden]
  rw [Nat.zero_add, hskip1, hui]
  dsimp only
  rw [if_neg (by simp)]
  rw [hskip2, hbyteR]
  rw [if_neg (by simp)]
  have hnum1 : ((((digitVal ds1 : Int) : ℚ)).num).toNat % 2 ^ 32 = digitVal ds1 := by
    simp [Rat.num_intCast]
    omega
  rw [hnum1, Nat.mod_eq_of_lt hv2]
  refine congrArg Except.ok ?_
  simp only [Prod.mk.injEq]
  exact ⟨trivial, by omega⟩

theorem c2_number_aux (ds1 ds2 rest : List Nat) (fuel : Nat)
    (h1 : ds1 ≠ []) (h2 : ds2 ≠ [])
    (hd1 : ∀ b ∈ ds1, isDigitByte b = true)
    (hd2 : ∀ b ∈ ds2, isDigitByte b = true)
    (hv1 : digitVal ds1 < 2 ^ 53)
    (hrest : ∀ c, rest.head? = some c → isDigitByte c = false)
    (hnoR : byteAt (ds1 ++ 32 :: (ds2 ++ rest))
        (skipSpace (ds1 ++ 32 :: (ds2 ++ rest))
          (ds1.length + 1 + ds2.length)) ≠ 82) :
    readValue (ds1 ++ 32 :: (ds2 ++ rest)) (fuel + 1) 0 =
      Except.ok (Value.number ((digitVal ds1 : Int) : ℚ), ds1.length) := by
  obtain ⟨b1, t1, rfl⟩ : ∃ b t, ds1 = b :: t := by
    cases ds1 with
    | nil => exact absurd rfl h1
    | cons b t => exact ⟨b, t, rfl⟩
  obtain ⟨b2, t2, rfl⟩ : ∃ b t, ds2 = b :: t := by
    cases ds2 with
    | nil => exact absurd rfl h2
    | cons b t => exact ⟨b, t, rfl⟩
  set ds1 := b1 :: t1 with hds1
  set ds2 := b2 :: t2 with hds2
  set d := ds1 ++ 32 :: (ds2 ++ rest) with hdd
  have hb1 : isDigitByte b1 = true := hd1 _ (List.mem_cons_self _ _)
  have hb1' : 48 ≤ b1 ∧ b1 ≤ 57 := by simpa [isDigitByte] using hb1
  have hb2 : isDigitByte b2 = true := hd2 _ (List.mem_cons_self _ _)
  have hdrop0 : d.drop 0 = ds1 ++ (32 :: (ds2 ++ rest)) := by
    simp [hdd]
  have hbyte0 : byteAt d 0 = b1 := by
    simp [hdd, hds1, byteAt, List.cons_append]
  have hv1' : (digitVal ds1 : Int) ≤ 2 ^ 63 - 1 := by omega
  have hnum : readNum d 0 = (((digitVal ds1 : Int) : ℚ), 0 + ds1.length, true) := by
    refine readNum_digits d 0 ds1 (32 :: (ds2 ++ rest)) hdrop0
      (by simp [hds1]) hd1 ?_ (by simp [byteAt_cons_zero]) hv1'
    intro c hc
    simp at hc
    subst hc
    rfl
  have hdrop1 : d.drop ds1.length = [32] ++ (ds2 ++ rest) := by
    simp only [hdd, List.drop_left]
    rfl
  have hskip1 : skipSpace d ds1.length = ds1.length + 1 := by
    refine skipSpace_region d ds1.length [32] (ds2 ++ rest) hdrop1
      (by decide) ?_
    intro c hc
    simp [hds2] at hc
    subst hc
    exact isSpaceByte_of_digit hb2
  have hdrop2 : d.drop (ds1.length + 1) = ds2 ++ rest := by
    simp [hdd, drop_append_cons]
  have hui : readUInt d (ds1.length + 1) =
      ((if 2 ^ 64 ≤ digitVal ds2 then 2 ^ 64 - 1 else digitVal ds2) % 2 ^ 32,
        ds1.length + 1 + ds2.length, true) :=
    readUInt_digits_raw d (ds1.length + 1) ds2 rest hdrop2
      (by simp [hds2]) hd2 hrest
  show parseRun d (fuel + 1) (PTask.val 0) = _
  rw [parseRun]
  have hcond : 48 ≤ byteAt d 0 ∧ byteAt d 0 ≤ 57 := by
    rw [hbyte0]
    exact hb1'
  rw [if_pos hcond, hnum]
  dsimp only
  have hden : ¬(((digitVal ds1 : Int) : ℚ).den ≠ 1) := by
    simp [Rat.den_intCast]
  rw [if_neg (by simp)]
  rw [if_neg hden]
  rw [Nat.zero_add, hskip1, hui]
  dsimp only
  rw [if_neg (by simp)]
  rw [if_pos hnoR]

/-! ## First-write-wins preservation of the xref merge -/

theorem tblValue_append_of_contains (t : XRefTable) (n : Nat)
    (x : Nat × XRefEntry) (hc : tblContains t n = true) :
    tblValue (t ++ [x]) n = tblValue t n := by
  induction t with
  | nil => simp [tblContains] at hc
  | cons h t ih =>
    by_cases hh : h.1 == n
    · simp [tblValue, List.find?_cons, hh]
    · have hh' : (h.1 == n) = false := by simpa using hh
      have hc' : tblContains t n = true := by
        simpa [tblContains, hh'] using hc
      simpa [tblValue, List.find?_cons, hh'] using ih hc'

theorem tblContains_append (t : XRefTable) (n : Nat) (x : Nat × XRefEntry)
    (hc : tblContains t n = true) : tblContains (t ++ [x]) n = true := by
  simp [tblContains] at hc ⊢
  exact Or.inl hc

theorem tblValue_insert_preserve (t : XRefTable) (n m : Nat) (e : XRefEntry)
    (hn : tblContains t n = true) (hm : tblContains t m = false) :
    tblValue (tblInsert t m e) n = tblValue t n := by
  unfold tblInsert
  rw [if_neg (by simp only [tblContains] at hm; simp [hm])]
  exact tblValue_append_of_contains t n (m, e) hn

theorem tblContains_insert_preserve (t : XRefTable) (n m : Nat) (e : XRefEntry)
    (hn : tblContains t n = true) (hm : tblContains t m = false) :
    tblContains (tblInsert t m e) n = true := by
  unfold tblInsert
  rw [if_neg (by simp only [tblContains] at hm; simp [hm])]
  exact tblContains_append t n (m, e) hn

theorem entriesLoop_preserve (d : List Nat) (cnt : Nat) :
    ∀ (objNum pos : Nat) (tbl : XRefTable) (n : Nat),
      tblContains tbl n = true →
      tblValue (entriesLoop d cnt objNum pos tbl).1 n = tblValue tbl n ∧
        tblContains (entriesLoop d cnt objNum pos tbl).1 n = true := by
  induction cnt with
  | zero => intro objNum pos tbl n hn; exact ⟨rfl, hn⟩
  | succ cnt ih =>
    intro objNum pos tbl n hn
    rw [entriesLoop]
    by_cases hc : tblContains tbl objNum = true
    · simpa [hc] using ih (objNum + 1) (pos + 20) tbl n hn
    · have hc' : tblContains tbl objNum = false := by simpa using hc
      by_cases hb : byteAt d (pos + 17) = 110
      · simp only [hc', Bool.false_eq_true, if_false, hb, if_true]
        set e : XRefEntry := ⟨(strtoulModel d pos).1, objNum,
          (strtoulModel d (pos + 11)).1 % 2 ^ 32, XStatus.Used⟩
        obtain ⟨h1, h2⟩ := ih (objNum + 1) (pos + 20) (tblInsert tbl objNum e) n
          (tblContains_insert_preserve tbl n objNum e hn hc')
        exact ⟨h1.trans (tblValue_insert_preserve tbl n objNum e hn hc'), h2⟩
      · simp only [hc', Bool.false_eq_true, if_false, hb, if_false]
        set e : XRefEntry := ⟨0, objNum,
          (strtoulModel d (pos + 11)).1 % 2 ^ 32, XStatus.Free⟩
        obtain ⟨h1, h2⟩ := ih (objNum + 1) (pos + 20) (tblInsert tbl objNum e) n
          (tblContains_insert_preserve tbl n objNum e hn hc')
        exact ⟨h1.trans (tblValue_insert_preserve tbl n objNum e hn hc'), h2⟩

theorem xrefLoop_preserve (d : List Nat) (fuel : Nat) :
    ∀ (pos : Nat) (tbl tbl2 : XRefTable) (p2 n : Nat),
      tblContains tbl n = true →
      xrefLoop d fuel pos tbl = Except.ok (tbl2, p2) →
      tblValue tbl2 n = tblValue tbl n ∧ tblContains tbl2 n = true := by
  induction fuel with
  | zero => intro pos tbl tbl2 p2 n hn h; simp [xrefLoop] at h
  | succ fuel ih =>
    intro pos tbl tbl2 p2 n hn h
    rw [xrefLoop] at h
    rcases hru1 : readUInt d pos with ⟨sn, p1, ok1⟩
    rw [hru1] at h
    dsimp only at h
    cases ok1 with
    | false => simp at h
    | true =>
      rw [if_neg (by simp)] at h
      rcases hru2 : readUInt d p1 with ⟨cnt, pp2, ok2⟩
      rw [hru2] at h
      dsimp only at h
      cases ok2 with
      | false => simp at h
      | true =>
        rw [if_neg (by simp)] at h
        rcases hel : entriesLoop d cnt sn (skipSpace d pp2) tbl with ⟨tblE, p4⟩
        rw [hel] at h
        dsimp only at h
        have hpre := entriesLoop_preserve d cnt sn (skipSpace d pp2) tbl n hn
        rw [hel] at hpre
        dsimp only at hpre
        by_cases htr : compareStr d (skipSpace d p4) trailerBytes = true
        · rw [if_pos htr] at h
          have htb : tblE = tbl2 := congrArg Prod.fst (Except.ok.inj h)
          exact htb ▸ hpre
        · rw [if_neg htr] at h
          obtain ⟨ha, hb⟩ := ih (skipSpace d p4) tblE tbl2 p2 n hpre.2 h
          exact ⟨ha.trans hpre.1, hb⟩

theorem readXRefTable_preserve (d : List Nat) (fuel pos : Nat)
    (tbl tbl2 : XRefTable) (p2 n : Nat)
    (hn : tblContains tbl n = true)
    (h : readXRefTable d fuel pos tbl = Except.ok (tbl2, p2)) :
    tblValue tbl2 n = tblValue tbl n ∧ tblContains tbl2 n = true := by
  rw [readXRefTable] at h
  by_cases hw : compareWord d (skipSpace d pos) xrefBytes = true
  · rw [if_neg (by simp [hw])] at h
    exact xrefLoop_preserve d fuel _ tbl tbl2 p2 n hn h
  · rw [if_pos (by simpa using hw)] at h
    simp at h

theorem loadLoop_preserve (d : List Nat) (fuel : Nat) :
    ∀ (prev : Int) (tbl tbl2 : XRefTable) (n : Nat),
      tblContains tbl n = true →
      loadLoop d fuel prev tbl = Except.ok tbl2 →
      tblValue tbl2 n = tblValue tbl n ∧ tblContains tbl2 n = true := by
  induction fuel with
  | zero => intro prev tbl tbl2 n hn h; simp [loadLoop] at h
  | succ fuel ih =>
    intro prev tbl tbl2 n hn h
    rw [loadLoop] at h
    by_cases hp : prev = 0
    · rw [if_pos hp] at h
      have : tbl = tbl2 := Except.ok.inj h
      subst this
      exact ⟨rfl, hn⟩
    · rw [if_neg hp] at h
      rcases hx : readXRefTable d fuel prev.toNat tbl with e | ⟨tblX, pX⟩
      · rw [hx] at h
        simp at h
      · rw [hx] at h
        dsimp only at h
        have hpre := readXRefTable_preserve d fuel prev.toNat tbl tblX pX n hn hx
        rcases hd : readDict d fuel (skipSpace d (pX + 7)) with e | ⟨dct, pD⟩
        · rw [hd] at h
          simp at h
        · rw [hd] at h
          dsimp only at h
          obtain ⟨ha, hb⟩ := ih _ tblX tbl2 n hpre.2 h
          exact ⟨ha.trans hpre.1, hb⟩

/-- Reference computation for the amended C3 claim: the trailer parsed
from the *newest* revision only (the segment referenced by the final
`startxref`), with no folding of older trailers.  It repeats the prefix
of `load` and stops after the first trailer dictionary. -/
def firstRevisionTrailer (d : List Nat) (fuel : Nat) : Except PErr Dict :=
  if indexOf d pdfMagicBytes 0 ≠ 0 then Except.error (PErr.headerError 0)
  else
    let startXRef := indexOfBack d startxrefBytes (d.length - 1)
    if startXRef < 0 then Except.error (PErr.parseError 0)
    else
      let pos := startXRef.toNat + 9
      let (xrefPos, p1, ok) := readUInt d pos
      if !ok then Except.error (PErr.parseError p1)
      else
        match readXRefTable d fuel xrefPos [] with
        | Except.error e => Except.error e
        | Except.ok (_, p) =>
          match readDict d fuel (skipSpace d (p + 7)) with
          | Except.error e => Except.error e
          | Except.ok (trailer, _) => Except.ok trailer

theorem load_trailer_eq_first (d : List Nat) (fuel : Nat)
    (tbl : XRefTable) (tr : Dict) (h : load d fuel = Except.ok (tbl, tr)) :
    firstRevisionTrailer d fuel = Except.ok tr := by
  rw [load] at h
  rw [firstRevisionTrailer]
  by_cases hh : indexOf d pdfMagicBytes 0 ≠ 0
  · rw [if_pos hh] at h
    simp at h
  · rw [if_neg hh] at h
    rw [if_neg hh]
    by_cases hs : indexOfBack d startxrefBytes (d.length - 1) < 0
    · rw [if_pos hs] at h
      simp at h
    · rw [if_neg hs] at h
      rw [if_neg hs]
      dsimp only at h ⊢
      rcases hru : readUInt d ((indexOfBack d startxrefBytes (d.length - 1)).toNat + 9)
        with ⟨xp, p1, ok⟩
      rw [hru] at h
      dsimp only at h ⊢
      cases ok with
      | false => simp at h
      | true =>
        rw [if_neg (by simp)] at h
        rw [if_neg (by simp)]
        rcases hx : readXRefTable d fuel xp [] with e | ⟨tblX, pX⟩
        · rw [hx] at h
          exact Except.noConfusion h
        · rw [hx] at h
          dsimp only at h ⊢
          rcases hd : readDict d fuel (skipSpace d (pX + 7)) with e | ⟨dct, pD⟩
          · rw [hd] at h
            exact Except.noConfusion h
          · rw [hd] at h
            dsimp only at h ⊢
            rcases hl : loadLoop d fuel (ratTrunc (dictNumValue dct prevKey)) tblX
              with e | tbl2
            · rw [hl] at h
              exact Except.noConfusion h
            · rw [hl] at h
              have htr : dct = tr := congrArg Prod.snd (Except.ok.inj h)
              rw [htr]

/-! ## skipCRLF: the maximal CR/LF run -/

theorem skipCRLF_spec (d : List Nat) (pos : Nat) :
    pos ≤ skipCRLF d pos ∧
    ¬(byteAt d (skipCRLF d pos) = 10 ∨ byteAt d (skipCRLF d pos) = 13) ∧
    ∀ j, pos ≤ j → j < skipCRLF d pos →
      byteAt d j = 10 ∨ byteAt d j = 13 := by
  refine ⟨Nat.le_add_right _ _, ?_, ?_⟩
  · have h := after_takeWhile_fails (p := fun b => b = 10 || b = 13)
      (d.drop pos) (by decide)
    simp only [Bool.or_eq_false_iff, decide_eq_false_iff_not] at h
    rw [skipCRLF, byteAt_drop]
    exact not_or.mpr h
  · intro j hj1 hj2
    obtain ⟨i, rfl⟩ : ∃ i, j = pos + i := ⟨j - pos, by omega⟩
    rw [skipCRLF] at hj2
    have hi : i < ((d.drop pos).takeWhile (fun b => b = 10 || b = 13)).length := by
      omega
    have h := elem_takeWhile_sat (d.drop pos) i hi
    rw [byteAt_drop]
    simpa using h

/-! ## Hex string decoding -/

/-- One step of the hex decoder state (decoded bytes, `first` flag,
pending high nibble); whitespace bytes leave the state unchanged. -/
def hexFold (st : List Nat × Bool × Nat) (b : Nat) : List Nat × Bool × Nat :=
  if isHexDigitByte b then
    if st.2.1 then (st.1, false, hexVal b)
    else (st.1 ++ [st.2.2 * 16 + hexVal b], true, 0)
  else st

/-- The pair-chunking specification of hex decoding from the claim: each
digit pair forms one byte; an odd trailing digit is the high nibble of a
final byte with low nibble zero. -/
def hexDecodeSpec : List Nat → List Nat
  | [] => []
  | [h] => [hexVal h * 16]
  | h1 :: h2 :: t => (hexVal h1 * 16 + hexVal h2) :: hexDecodeSpec t

theorem hex_not_space {b : Nat} (h : isSpaceByte b = true) :
    isHexDigitByte b = false := by
  simp [isSpaceByte] at h
  simp [isHexDigitByte]
  omega

theorem readHexLoop_scan (start : Nat) (content : List Nat)
    (hc : ∀ b ∈ content, isHexDigitByte b = true ∨ isSpaceByte b = true) :
    ∀ (suf acc : List Nat) (first : Bool) (r pos : Nat),
      readHexLoop start acc first r (content ++ suf) pos =
        readHexLoop start (content.foldl hexFold (acc, first, r)).1
          (content.foldl hexFold (acc, first, r)).2.1
          (content.foldl hexFold (acc, first, r)).2.2 suf (pos + content.length) := by
  induction content with
  | nil => intro suf acc first r pos; rfl
  | cons c t ih =>
    intro suf acc first r pos
    have hct := fun b hb => hc b (List.mem_cons_of_mem c hb)
    rcases hc c (List.mem_cons_self c t) with hx | hw
    · cases first with
      | true =>
        rw [List.cons_append, readHexLoop, if_pos hx]
        rw [ih hct suf acc false (hexVal c) (pos + 1)]
        simp [List.foldl_cons, hexFold, hx]
        congr 1
        omega
      | false =>
        rw [List.cons_append, readHexLoop, if_pos hx]
        rw [ih hct suf (acc ++ [r * 16 + hexVal c]) true 0 (pos + 1)]
        simp [List.foldl_cons, hexFold, hx]
        congr 1
        omega
    · have hx : isHexDigitByte c = false := hex_not_space hw
      rw [List.cons_append, readHexLoop, if_neg (by simp [hx]), if_pos hw]
      rw [ih hct suf acc first r (pos + 1)]
      simp [List.foldl_cons, hexFold, hx]
      congr 1
      omega

theorem hexFold_spec : ∀ (ds : List Nat),
    (∀ b ∈ ds, isHexDigitByte b = true) → ∀ (acc : List Nat),
      (if (ds.foldl hexFold (acc, true, 0)).2.1 then
          (ds.foldl hexFold (acc, true, 0)).1
        else (ds.foldl hexFold (acc, true, 0)).1 ++
          [(ds.foldl hexFold (acc, true, 0)).2.2 * 16]) =
        acc ++ hexDecodeSpec ds
  | [], _, acc => by simp [hexDecodeSpec]
  | [h], hds, acc => by
    have hx : isHexDigitByte h = true := hds h (List.mem_cons_self h [])
    simp [List.foldl_cons, hexFold, hx, hexDecodeSpec]
  | h1 :: h2 :: t, hds, acc => by
    have hx1 : isHexDigitByte h1 = true := hds h1 (by simp)
    have hx2 : isHexDigitByte h2 = true := hds h2 (by simp)
    have ih := hexFold_spec t (fun b hb => hds b (by simp [hb]))
      (acc ++ [hexVal h1 * 16 + hexVal h2])
    simp only [List.foldl_cons]
    have e1 : hexFold (acc, true, 0) h1 = (acc, false, hexVal h1) := by
      simp [hexFold, hx1]
    have e2 : hexFold (acc, false, hexVal h1) h2 =
        (acc ++ [hexVal h1 * 16 + hexVal h2], true, 0) := by
      simp [hexFold, hx2]
    rw [e1, e2, ih]
    simp [hexDecodeSpec]

theorem hexDecodeSpec_length : ∀ (ds : List Nat),
    (hexDecodeSpec ds).length = (ds.length + 1) / 2
  | [] => by simp [hexDecodeSpec]
  | [h] => by simp [hexDecodeSpec]
  | h1 :: h2 :: t => by
    have ih := hexDecodeSpec_length t
    simp only [hexDecodeSpec, List.length_cons]
    omega

theorem foldl_hexFold_filter : ∀ (content : List Nat),
    (∀ b ∈ content, isHexDigitByte b = true ∨ isSpaceByte b = true) →
    ∀ st, content.foldl hexFold st =
      (content.filter isHexDigitByte).foldl hexFold st := by
  intro content
  induction content with
  | nil => intro _ st; rfl
  | cons c t ih =>
    intro hc st
    have hct := fun b hb => hc b (List.mem_cons_of_mem c hb)
    rcases hc c (List.mem_cons_self c t) with hx | hw
    · simp [List.foldl_cons, List.filter_cons, hx, ih hct]
    · have hx : isHexDigitByte c = false := hex_not_space hw
      simp [List.foldl_cons, List.filter_cons, hx, hexFold, ih hct]

/-! ## Octal escapes in literal strings -/

theorem c6_octal1_step (start fuel level : Nat) (acc : List Nat)
    (o1 c : Nat) (t : List Nat) (i : Nat) (h1 : 48 ≤ o1 ∧ o1 ≤ 55)
    (hc : isOctalByte c = false) :
    readLitLoop start (fuel + 1) level true acc (o1 :: c :: t) i =
      readLitLoop start fuel level false (acc ++ [o1 - 48]) (c :: t) (i + 1) := by
  have e1 : isOctalByte o1 = true := by simp [isOctalByte]; omega
  have n1 : ∀ m : Nat, 55 < m → (o1 = m) = False :=
    fun m hm => eq_false (by omega)
  rw [readLitLoop.eq_def]
  simp only [n1 92 (by omega), n1 110 (by omega), n1 114 (by omega),
    n1 116 (by omega), n1 98 (by omega), n1 102 (by omega), e1, hc,
    Bool.false_eq_true, if_false, if_true]
  rw [Nat.mod_eq_of_lt (by omega)]

theorem c6_octal2_step (start fuel level : Nat) (acc : List Nat)
    (o1 o2 c : Nat) (t : List Nat) (i : Nat) (h1 : 48 ≤ o1 ∧ o1 ≤ 55)
    (h2 : 48 ≤ o2 ∧ o2 ≤ 55) (hc : isOctalByte c = false) :
    readLitLoop start (fuel + 1) level true acc (o1 :: o2 :: c :: t) i =
      readLitLoop start fuel level false
        (acc ++ [(o1 - 48) * 8 + (o2 - 48)]) (c :: t) (i + 2) := by
  have e1 : isOctalByte o1 = true := by simp [isOctalByte]; omega
  have e2 : isOctalByte o2 = true := by simp [isOctalByte]; omega
  have n1 : ∀ m : Nat, 55 < m → (o1 = m) = False :=
    fun m hm => eq_false (by omega)
  rw [readLitLoop.eq_def]
  simp only [n1 92 (by omega), n1 110 (by omega), n1 114 (by omega),
    n1 116 (by omega), n1 98 (by omega), n1 102 (by omega), e1, e2, hc,
    Bool.false_eq_true, if_false, if_true]
  rw [Nat.mod_eq_of_lt (by omega)]

theorem c6_octal1 (o1 : Nat) (rest : List Nat) (fuel : Nat)
    (h1 : 48 ≤ o1 ∧ o1 ≤ 55) :
    readLiteralString (40 :: 92 :: o1 :: 41 :: rest) (fuel + 3) 0 =
      Except.ok ([o1 - 48], 4) := by
  show readLitLoop 0 (fuel + 3) 1 false [] (92 :: o1 :: 41 :: rest) 1 = _
  rw [readLitLoop]
  simp only [if_pos (show (92 : Nat) = 92 from rfl), Bool.false_eq_true, if_false]
  rw [c6_octal1_step 0 (fuel + 1) 1 [] o1 41 rest 2 h1 (by decide)]
  rw [readLitLoop.eq_def]
  norm_num [isOctalByte]

theorem c6_octal2 (o1 o2 : Nat) (rest : List Nat) (fuel : Nat)
    (h1 : 48 ≤ o1 ∧ o1 ≤ 55) (h2 : 48 ≤ o2 ∧ o2 ≤ 55) :
    readLiteralString (40 :: 92 :: o1 :: o2 :: 41 :: rest) (fuel + 3) 0 =
      Except.ok ([(o1 - 48) * 8 + (o2 - 48)], 5) := by
  show readLitLoop 0 (fuel + 3) 1 false [] (92 :: o1 :: o2 :: 41 :: rest) 1 = _
  rw [readLitLoop]
  simp only [if_pos (show (92 : Nat) = 92 from rfl), Bool.false_eq_true, if_false]
  rw [c6_octal2_step 0 (fuel + 1) 1 [] o1 o2 41 rest 2 h1 h2 (by decide)]
  rw [readLitLoop.eq_def]
  norm_num [isOctalByte]

theorem c6_octal3 (o1 o2 o3 : Nat) (rest : List Nat) (fuel : Nat)
    (h1 : 48 ≤ o1 ∧ o1 ≤ 55) (h2 : 48 ≤ o2 ∧ o2 ≤ 55)
    (h3 : 48 ≤ o3 ∧ o3 ≤ 55) :
    readLiteralString (40 :: 92 :: o1 :: o2 :: o3 :: 41 :: rest) (fuel + 3) 0 =
      Except.ok ([(((o1 - 48) * 8 + (o2 - 48)) * 8 + (o3 - 48)) % 256], 6) := by
  have e1 : isOctalByte o1 = true := by simp [isOctalByte]; omega
  have e2 : isOctalByte o2 = true := by simp [isOctalByte]; omega
  have e3 : isOctalByte o3 = true := by simp [isOctalByte]; omega
  have n1 : ∀ m : Nat, 55 < m → (o1 = m) = False :=
    fun m hm => eq_false (by omega)
  show readLitLoop 0 (fuel + 3) 1 false [] (92 :: o1 :: o2 :: o3 :: 41 :: rest) 1 = _
  rw [readLitLoop]
  simp only [if_pos (show (92 : Nat) = 92 from rfl), Bool.false_eq_true, if_false]
  rw [readLitLoop]
  simp only [n1 92 (by omega), n1 110 (by omega), n1 114 (by omega),
    n1 116 (by omega), n1 98 (by omega), n1 102 (by omega), e2, e3, e1,
    if_false, if_true]
  rw [readLitLoop.eq_def]
  norm_num [isOctalByte]

theorem c6_octal_stops_at_three (o1 o2 o3 o4 : Nat) (rest : List Nat)
    (fuel : Nat) (h1 : 48 ≤ o1 ∧ o1 ≤ 55) (h2 : 48 ≤ o2 ∧ o2 ≤ 55)
    (h3 : 48 ≤ o3 ∧ o3 ≤ 55) (h4 : 48 ≤ o4 ∧ o4 ≤ 55) :
    readLiteralString (40 :: 92 :: o1 :: o2 :: o3 :: o4 :: 41 :: rest)
        (fuel + 4) 0 =
      Except.ok ([(((o1 - 48) * 8 + (o2 - 48)) * 8 + (o3 - 48)) % 256, o4], 7) := by
  have e1 : isOctalByte o1 = true := by simp [isOctalByte]; omega
  have e2 : isOctalByte o2 = true := by simp [isOctalByte]; omega
  have e3 : isOctalByte o3 = true := by simp [isOctalByte]; omega
  have e4 : isOctalByte o4 = true := by simp [isOctalByte]; omega
  have n1 : ∀ m : Nat, 55 < m → (o1 = m) = False :=
    fun m hm => eq_false (by omega)
  have n4 : ∀ m : Nat, 55 < m → (o4 = m) = False :=
    fun m hm => eq_false (by omega)
  show readLitLoop 0 (fuel + 4) 1 false []
    (92 :: o1 :: o2 :: o3 :: o4 :: 41 :: rest) 1 = _
  rw [readLitLoop]
  simp only [if_pos (show (92 : Nat) = 92 from rfl), Bool.false_eq_true, if_false]
  rw [readLitLoop]
  simp only [n1 92 (by omega), n1 110 (by omega), n1 114 (by omega),
    n1 116 (by omega), n1 98 (by omega), n1 102 (by omega), e2, e3, e1,
    if_false, if_true]
  rw [readLitLoop.eq_def]
  simp only [n4 92 (by omega), n4 110 (by omega), n4 114 (by omega),
    n4 116 (by omega), n4 98 (by omega), n4 102 (by omega), e4,
    Bool.false_eq_true, if_false, if_true]
  rw [readLitLoop.eq_def]
  norm_num [isOctalByte]

/-! ## The claims -/

/-- C1: an entry already present in the table is never overwritten by a
later-parsed (older) segment — neither by a single `readXRefTable` call
nor across the whole `/Prev` walk of `load` — and on the concrete
two-revision file the merged table maps object 1 to the newest
revision's entry (offset 125, not the older revision's 9). -/
theorem claim_c1_xref_first_write_wins :
    (∀ (d : List Nat) (fuel pos : Nat) (tbl tbl2 : XRefTable) (p2 n : Nat),
      tblContains tbl n = true →
      readXRefTable d fuel pos tbl = Except.ok (tbl2, p2) →
      tblValue tbl2 n = tblValue tbl n) ∧
    (∀ (d : List Nat) (fuel : Nat) (prev : Int) (tbl tbl2 : XRefTable) (n : Nat),
      tblContains tbl n = true →
      loadLoop d fuel prev tbl = Except.ok tbl2 →
      tblValue tbl2 n = tblValue tbl n) ∧
    (load twoRevPdf 64).map (fun r => (tblValue r.1 1).pos) = Except.ok 125 :=
  ⟨fun d fuel pos tbl tbl2 p2 n hn h =>
      (readXRefTable_preserve d fuel pos tbl tbl2 p2 n hn h).1,
    fun d fuel prev tbl tbl2 n hn h =>
      (loadLoop_preserve d fuel prev tbl tbl2 n hn h).1,
    rfl⟩

/-- The table holding the two entries of the newest revision of
`twoRevPdf`, as merged before the older segment at offset 35 is read. -/
def c1WitnessTbl : XRefTable :=
  [(0, ⟨0, 0, 65535, XStatus.Free⟩), (1, ⟨125, 1, 0, XStatus.Used⟩)]

/-- Witness for C1: parsing the older revision's segment (offset 35 of
`twoRevPdf`) into a table that already has an entry for object 1 leaves
that entry unchanged. -/
theorem claim_c1_xref_first_write_wins_witness :
    tblValue c1WitnessTbl 1 = tblValue c1WitnessTbl 1 :=
  claim_c1_xref_first_write_wins.1 twoRevPdf 8 35 c1WitnessTbl c1WitnessTbl
    84 1 rfl rfl

/-- C5: the reader's boolean parse.  The word true followed by a
delimiter yields `Bool(true)` advancing 4 bytes, and any other word
starting with t or f is a `ParseError` — but the word false, instead of
yielding the boolean false required by the spec, yields `Bool(true)`
(pdfreader.cpp line 174), advancing 5 bytes.  This evaluates the code at
the failing input. -/
theorem claim_c5_false_literal_returns_true :
    readValue (strBytes "false  ") 9 0 = Except.ok (Value.bool true, 5) ∧
    readValue (strBytes "true  ") 9 0 = Except.ok (Value.bool true, 4) ∧
    readValue (strBytes "truex  ") 9 0 = Except.error (PErr.parseError 0) ∧
    readValue (strBytes "falsx  ") 9 0 = Except.error (PErr.parseError 0) :=
  ⟨rfl, rfl, rfl, rfl⟩

/-- C8: inside a literal string, an unescaped line feed contributes a
line feed byte, but an unescaped bare carriage return contributes a
carriage return byte 0x0D (pdfreader.cpp line 519), not the line feed
0x0A that the claim (and the block comment above the function, which
restates the PDF specification) requires.  This evaluates the code at
the failing input `(a\rb)`. -/
theorem claim_c8_bare_cr_kept :
    readLiteralString (strBytes "(a\rb)") 9 0 = Except.ok ([97, 13, 98], 5) ∧
    readLiteralString (strBytes "(a\nb)") 9 0 = Except.ok ([97, 10, 98], 5) :=
  ⟨rfl, rfl⟩

/-- C9: when the object number is absent from the merged table, or its
recorded offset is zero, `getObject` returns the empty object and does
not fail. -/
theorem claim_c9_get_object_absent (d : List Nat) (tbl : XRefTable)
    (fuel n g : Nat)
    (h : tblContains tbl n = false ∨ (tblValue tbl n).pos = 0) :
    getObject d tbl (fuel + 1) n g = Except.ok emptyObject := by
  have hpos : (tblValue tbl n).pos = 0 := by
    rcases h with h | h
    · have hnone : tbl.find? (fun e => e.1 == n) = none := by
        rw [List.find?_eq_none]
        intro x hx hc
        have hany : tbl.any (fun e => e.1 == n) = true := by
          rw [List.any_eq_true]
          exact ⟨x, hx, hc⟩
        simp only [tblContains] at h
        rw [h] at hany
        exact Bool.noConfusion hany
      rw [tblValue, hnone]
    · exact h
  rw [getObject, objRun]
  rw [if_neg (by simp [hpos])]

/-- Witness for C9: looking up object 5 in an empty table yields the
empty object. -/
theorem claim_c9_get_object_absent_witness :
    getObject [] [] 1 5 0 = Except.ok emptyObject :=
  claim_c9_get_object_absent [] [] 0 5 0 (Or.inl rfl)

/-- C10: `getObject` ignores its generation-number argument entirely
(`Q_UNUSED(genNum)`); lookup is by object number alone. -/
theorem claim_c10_gen_num_ignored (d : List Nat) (tbl : XRefTable)
    (fuel n g1 g2 : Nat) :
    getObject d tbl fuel n g1 = getObject d tbl fuel n g2 := by
  cases fuel <;> rfl

/-- C2: at a buffer spelling two space-separated decimal numerals
followed by ` R`, `readValue` yields the indirect reference
`Link(a, b)` with the cursor just past the R; without a following R it
yields `Number(a)` with the cursor immediately after the first numeral —
the speculative lookahead consumes no input when the pattern fails.
The numerals are arbitrary digit strings; in the Link case `a` is
bounded by the u32 objNum field and `b` by the u16 genNum field of
`Link`, and in the Number case `a` is bounded by `2 ^ 53`, the largest
range on which the C++ `double` holds the `strtoll` result exactly
(beyond it the program would return a rounded Number, which the
exact-rational model does not claim to reproduce). -/
theorem claim_c2_link_lookahead_rollback :
    (∀ (ds1 ds2 rest : List Nat) (fuel : Nat),
      ds1 ≠ [] → ds2 ≠ [] →
      (∀ b ∈ ds1, isDigitByte b = true) → (∀ b ∈ ds2, isDigitByte b = true) →
      digitVal ds1 < 2 ^ 32 → digitVal ds2 < 2 ^ 16 →
      readValue (ds1 ++ 32 :: (ds2 ++ 32 :: 82 :: rest)) (fuel + 1) 0 =
        Except.ok (Value.link (digitVal ds1) (digitVal ds2),
          ds1.length + ds2.length + 3)) ∧
    (∀ (ds1 ds2 rest : List Nat) (fuel : Nat),
      ds1 ≠ [] → ds2 ≠ [] →
      (∀ b ∈ ds1, isDigitByte b = true) → (∀ b ∈ ds2, isDigitByte b = true) →
      digitVal ds1 < 2 ^ 53 →
      (∀ c, rest.head? = some c → isDigitByte c = false) →
      byteAt (ds1 ++ 32 :: (ds2 ++ rest))
          (skipSpace (ds1 ++ 32 :: (ds2 ++ rest))
            (ds1.length + 1 + ds2.length)) ≠ 82 →
      readValue (ds1 ++ 32 :: (ds2 ++ rest)) (fuel + 1) 0 =
        Except.ok (Value.number ((digitVal ds1 : Int) : ℚ), ds1.length)) :=
  ⟨c2_link_aux, c2_number_aux⟩

/-- Witness for C2: the buffer `12 34 R ` parses to `Link(12, 34)` with
the cursor at 7, and `12 34 x ` parses to `Number(12)` with the cursor
at 2, immediately after `12`. -/
theorem claim_c2_link_lookahead_rollback_witness :
    readValue (strBytes "12 34 R ") 16 0 =
      Except.ok (Value.link 12 34, 7) ∧
    readValue (strBytes "12 34 x ") 16 0 =
      Except.ok (Value.number ((12 : Int) : ℚ), 2) :=
  ⟨claim_c2_link_lookahead_rollback.1 [49, 50] [51, 52] [32] 15
      (by decide) (by decide) (by decide) (by decide) (by decide) (by decide),
    claim_c2_link_lookahead_rollback.2 [49, 50] [51, 52] [32, 120, 32] 15
      (by decide) (by decide) (by decide) (by decide) (by decide)
      (by decide) (by decide)⟩

/-- C3 counterexample: on the concrete two-revision file, `load`
succeeds, the older revision's trailer (the dictionary at offset 92,
reached from the newest trailer's `/Prev 35` via the segment ending at
the trailer keyword at offset 84) contains `/Foo 7`, yet the merged
trailer returned by `load` has no `Foo` key at all — so the merged
trailer is not the key-wise union of the chain's trailers. -/
theorem claim_c3_trailer_union_counterexample :
    (load twoRevPdf 64).map (fun r => ratTrunc (dictNumValue r.2 prevKey)) =
      Except.ok 35 ∧
    (readXRefTable twoRevPdf 64 35 []).map (fun r => r.2) = Except.ok 84 ∧
    (readDict twoRevPdf 64 92).map (fun r => dictLookup r.1 fooKey) =
      Except.ok (some (Value.number 7)) ∧
    (load twoRevPdf 64).map (fun r => dictLookup r.2 fooKey) =
      Except.ok none :=
  ⟨rfl, rfl, rfl, rfl⟩

/-- C3 amended: after `load`, the document's trailer dictionary equals
the newest revision's trailer exactly; the trailers of older revisions
contribute nothing (they are read only to find the next `/Prev`). -/
theorem claim_c3_trailer_newest_only (d : List Nat) (fuel : Nat)
    (tbl : XRefTable) (tr : Dict) (h : load d fuel = Except.ok (tbl, tr)) :
    firstRevisionTrailer d fuel = Except.ok tr :=
  load_trailer_eq_first d fuel tbl tr h

/-- The result of loading the two-revision file (used to discharge the
hypothesis of the amended C3 theorem at a concrete input). -/
def loadedPair : XRefTable × Dict :=
  match load twoRevPdf 64 with
  | Except.ok p => p
  | Except.error _ => ([], [])

/-- Witness for the amended C3: on the two-revision file the trailer
returned by `load` is the newest revision's trailer. -/
theorem claim_c3_trailer_newest_only_witness :
    firstRevisionTrailer twoRevPdf 64 = Except.ok loadedPair.2 :=
  claim_c3_trailer_newest_only twoRevPdf 64 loadedPair.1 loadedPair.2 rfl

/-- C4 counterexample: in `streamPdf` the `stream` keyword ends at
offset 29 and is followed by two line feeds (offsets 30 and 31); the
single end-of-line sequence after the keyword is the one byte at 30, so
the claim requires the stream view to start at 31 — but `readObject`
returns a view starting at 32, after the entire CR/LF run. -/
theorem claim_c4_single_eol_counterexample :
    (readObject streamPdf [] 32 0).map (fun r => r.1.stream) =
      Except.ok (some (32, 4)) ∧
    ¬((readObject streamPdf [] 32 0).map (fun r => r.1.stream) =
      Except.ok (some (31, 4))) := by
  refine ⟨rfl, ?_⟩
  intro h
  rw [show (readObject streamPdf [] 32 0).map (fun r => r.1.stream) =
    Except.ok (some (32, 4)) from rfl] at h
  simp at h

/-- C4 amended: after the `stream` keyword the reader skips the entire
maximal run of CR and LF bytes (not exactly one end-of-line sequence)
and returns a stream view of exactly Length bytes starting at the first
non-CRLF position; Length is taken from the dictionary's `Length` entry
directly when it is a Number (`streamPdf`: 4 bytes at offset 32) and by
resolving the indirect object when it is a Link (`linkLenPdf`:
`/Length 2 0 R` with object 2 holding 4 gives 4 bytes at offset 35,
immediately after the single line feed). -/
theorem claim_c4_stream_skips_crlf_run :
    (∀ (d : List Nat) (pos : Nat),
      pos ≤ skipCRLF d pos ∧
      ¬(byteAt d (skipCRLF d pos) = 10 ∨ byteAt d (skipCRLF d pos) = 13) ∧
      ∀ j, pos ≤ j → j < skipCRLF d pos →
        byteAt d j = 10 ∨ byteAt d j = 13) ∧
    (readObject streamPdf [] 32 0).map (fun r => r.1.stream) =
      Except.ok (some (32, 4)) ∧
    (readObject linkLenPdf linkLenTbl 32 0).map (fun r => r.1.stream) =
      Except.ok (some (35, 4)) :=
  ⟨skipCRLF_spec, rfl, rfl⟩

/-- Witness for the amended C4: after the `stream` keyword of
`streamPdf` (whose following bytes are two line feeds), the position
`skipCRLF` stops at holds neither a CR nor an LF. -/
theorem claim_c4_stream_skips_crlf_run_witness :
    ¬(byteAt streamPdf (skipCRLF streamPdf 30) = 10 ∨
      byteAt streamPdf (skipCRLF streamPdf 30) = 13) :=
  (claim_c4_stream_skips_crlf_run.1 streamPdf 30).2.1

/-- C6: a backslash followed by one to three octal digits contributes
exactly one byte whose value is the octal number truncated modulo 256,
and at most three digits are consumed.  The one- and two-digit escapes
are characterized both as loop steps over an arbitrary non-octal
follower byte (exactly one byte appended, exactly that many digits
consumed, scanning resuming at the follower) and as complete parses
closed by a parenthesis; the three-digit escape and the four-digit
boundary (a fourth octal digit is provably taken literally) are
complete parses over arbitrary octal digits; and concretely `(\5)`
decodes to the byte 0x05, `(\0053)` to the bytes 0x05 and the digit 3,
while `(\53)` and `(\053)` both decode to the single byte 0x2B. -/
theorem claim_c6_octal_escape :
    (∀ (start fuel level : Nat) (acc : List Nat) (o1 c : Nat)
        (t : List Nat) (i : Nat),
      48 ≤ o1 ∧ o1 ≤ 55 → isOctalByte c = false →
      readLitLoop start (fuel + 1) level true acc (o1 :: c :: t) i =
        readLitLoop start fuel level false (acc ++ [o1 - 48]) (c :: t)
          (i + 1)) ∧
    (∀ (start fuel level : Nat) (acc : List Nat) (o1 o2 c : Nat)
        (t : List Nat) (i : Nat),
      48 ≤ o1 ∧ o1 ≤ 55 → 48 ≤ o2 ∧ o2 ≤ 55 → isOctalByte c = false →
      readLitLoop start (fuel + 1) level true acc (o1 :: o2 :: c :: t) i =
        readLitLoop start fuel level false
          (acc ++ [(o1 - 48) * 8 + (o2 - 48)]) (c :: t) (i + 2)) ∧
    (∀ (o1 : Nat) (rest : List Nat) (fuel : Nat),
      48 ≤ o1 ∧ o1 ≤ 55 →
      readLiteralString (40 :: 92 :: o1 :: 41 :: rest) (fuel + 3) 0 =
        Except.ok ([o1 - 48], 4)) ∧
    (∀ (o1 o2 : Nat) (rest : List Nat) (fuel : Nat),
      48 ≤ o1 ∧ o1 ≤ 55 → 48 ≤ o2 ∧ o2 ≤ 55 →
      readLiteralString (40 :: 92 :: o1 :: o2 :: 41 :: rest) (fuel + 3) 0 =
        Except.ok ([(o1 - 48) * 8 + (o2 - 48)], 5)) ∧
    (∀ (o1 o2 o3 : Nat) (rest : List Nat) (fuel : Nat),
      48 ≤ o1 ∧ o1 ≤ 55 → 48 ≤ o2 ∧ o2 ≤ 55 → 48 ≤ o3 ∧ o3 ≤ 55 →
      readLiteralString (40 :: 92 :: o1 :: o2 :: o3 :: 41 :: rest)
          (fuel + 3) 0 =
        Except.ok ([(((o1 - 48) * 8 + (o2 - 48)) * 8 + (o3 - 48)) % 256], 6)) ∧
    (∀ (o1 o2 o3 o4 : Nat) (rest : List Nat) (fuel : Nat),
      48 ≤ o1 ∧ o1 ≤ 55 → 48 ≤ o2 ∧ o2 ≤ 55 → 48 ≤ o3 ∧ o3 ≤ 55 →
      48 ≤ o4 ∧ o4 ≤ 55 →
      readLiteralString (40 :: 92 :: o1 :: o2 :: o3 :: o4 :: 41 :: rest)
          (fuel + 4) 0 =
        Except.ok ([(((o1 - 48) * 8 + (o2 - 48)) * 8 + (o3 - 48)) % 256, o4],
          7)) ∧
    readLiteralString (strBytes "(\\5)") 9 0 = Except.ok ([5], 4) ∧
    readLiteralString (strBytes "(\\0053)") 9 0 = Except.ok ([5, 51], 7) ∧
    readLiteralString (strBytes "(\\53)") 9 0 = Except.ok ([43], 5) ∧
    readLiteralString (strBytes "(\\053)") 9 0 = Except.ok ([43], 6) :=
  ⟨c6_octal1_step, c6_octal2_step, c6_octal1, c6_octal2,
    fun o1 o2 o3 rest fuel h1 h2 h3 => c6_octal3 o1 o2 o3 rest fuel h1 h2 h3,
    fun o1 o2 o3 o4 rest fuel h1 h2 h3 h4 =>
      c6_octal_stops_at_three o1 o2 o3 o4 rest fuel h1 h2 h3 h4,
    rfl, rfl, rfl, rfl⟩

/-- Witness for C6: the one-digit escape `\5` inside `(\5)` contributes
the single byte 0x05 with the closing parenthesis consumed at
position 3, and the three-digit escape `\053` inside `(\053)`
contributes the single byte 0x2B (43). -/
theorem claim_c6_octal_escape_witness :
    readLiteralString (40 :: 92 :: 53 :: 41 :: []) 3 0 =
      Except.ok ([5], 4) ∧
    readLiteralString (40 :: 92 :: 48 :: 53 :: 51 :: 41 :: []) 3 0 =
      Except.ok ([43], 6) :=
  ⟨claim_c6_octal_escape.2.2.1 53 [] 0 (by decide),
    claim_c6_octal_escape.2.2.2.2.1 48 53 51 [] 0
      (by decide) (by decide) (by decide)⟩

/-- C7: a hex string whose content between `<` and `>` consists of hex
digits with interleaved whitespace decodes to the pair-chunked bytes of
the digit sequence (`hexDecodeSpec`, written from the claim: each digit
pair one byte, an odd trailing digit the high nibble of a final byte
with low nibble zero), yielding `(n+1)/2` bytes for `n` digits — and
any non-hex, non-whitespace byte before the closing `>` is a
`ParseError` at its position. -/
theorem claim_c7_hex_decoding :
    (∀ (content rest : List Nat),
      (∀ b ∈ content, isHexDigitByte b = true ∨ isSpaceByte b = true) →
      readHexString (60 :: (content ++ 62 :: rest)) 0 =
        Except.ok (hexDecodeSpec (content.filter isHexDigitByte),
          content.length + 2) ∧
      (hexDecodeSpec (content.filter isHexDigitByte)).length =
        ((content.filter isHexDigitByte).length + 1) / 2) ∧
    (∀ (content : List Nat) (c : Nat) (rest : List Nat),
      (∀ b ∈ content, isHexDigitByte b = true ∨ isSpaceByte b = true) →
      isHexDigitByte c = false → isSpaceByte c = false → c ≠ 62 →
      readHexString (60 :: (content ++ c :: rest)) 0 =
        Except.error (PErr.parseError (content.length + 1))) := by
  constructor
  · intro content rest hc
    refine ⟨?_, hexDecodeSpec_length _⟩
    rw [readHexString]
    rw [show (60 :: (content ++ 62 :: rest)).drop (0 + 1) =
      content ++ 62 :: rest by simp]
    rw [readHexLoop_scan 0 content hc (62 :: rest) [] true 0 1]
    rw [readHexLoop]
    rw [if_neg (by decide), if_neg (by decide), if_pos rfl]
    rw [foldl_hexFold_filter content hc ([], true, 0)]
    have hspec := hexFold_spec (content.filter isHexDigitByte)
      (fun b hb => List.of_mem_filter hb) []
    rw [hspec]
    simp only [List.nil_append]
    refine congrArg Except.ok ?_
    simp only [Prod.mk.injEq]
    exact ⟨trivial, by omega⟩
  · intro content c rest hc hx hw h62
    rw [readHexString]
    rw [show (60 :: (content ++ c :: rest)).drop (0 + 1) =
      content ++ c :: rest by simp]
    rw [readHexLoop_scan 0 content hc (c :: rest) [] true 0 1]
    rw [readHexLoop]
    rw [if_neg (by simp [hx]), if_neg (by simp [hw]), if_neg h62]
    refine congrArg Except.error ?_
    refine congrArg PErr.parseError ?_
    omega

/-- Witness for C7: `<901FA>` (five hex digits) decodes to the three
bytes 0x90, 0x1F, 0xA0, the odd trailing digit A acting as the high
nibble of the final byte. -/
theorem claim_c7_hex_decoding_witness :
    readHexString (60 :: ([57, 48, 49, 70, 65] ++ 62 :: [])) 0 =
      Except.ok (hexDecodeSpec ([57, 48, 49, 70, 65].filter isHexDigitByte),
        7) ∧
    hexDecodeSpec ([57, 48, 49, 70, 65].filter isHexDigitByte) =
      [144, 31, 160] :=
  ⟨(claim_c7_hex_decoding.1 [57, 48, 49, 70, 65] [] (by decide)).1, by decide⟩

end PdfReader
